import Mathlib

/-!
Verification of the client-side search/ranking module of the robotsthatexist
repository (`src/lib/client-search-utils.ts`, plus the `normalizeText`
normalizer of the server search module).

The TypeScript functions are shallowly embedded as Lean functions over
`List Char` / `String`.  The external Fuse.js fuzzy matcher is not part of the
repository; every pipeline function therefore takes the fuzzy backend as an
explicit function parameter `fuse`, and the theorems quantify over it (adding,
where a claim needs them, the documented guarantees of the library: results
drawn from the indexed collection, at most `limit` of them, each item at most
once).  A concrete executable backend `fuseModel`, modelled from the spec, is
used to instantiate witnesses and counterexamples.
-/

/-! ## Character classes and JS string primitives -/

/-- The JavaScript whitespace class: the characters matched by the regex `\s`
and stripped by `String.prototype.trim` (ASCII whitespace, NBSP, BOM and the
Unicode space separators). -/
def isJsWhitespace (c : Char) : Bool :=
  c.toNat = 0x20 || c.toNat = 0x9 || c.toNat = 0xa || c.toNat = 0xd ||
  c.toNat = 0xb || c.toNat = 0xc || c.toNat = 0xa0 || c.toNat = 0xfeff ||
  c.toNat = 0x1680 || (0x2000 ≤ c.toNat && c.toNat ≤ 0x200a) ||
  c.toNat = 0x2028 || c.toNat = 0x2029 || c.toNat = 0x202f || c.toNat = 0x3000

/-- The character class of the regex `[\s\-_\.]` (whitespace, `'-'`, `'_'`,
`'.'`) used by `preprocessQuery` (line 53 of `client-search-utils.ts`) and by
`normalizeText`. -/
def isSepChar (c : Char) : Bool :=
  isJsWhitespace c || c.toNat = 0x2d || c.toNat = 0x5f || c.toNat = 0x2e

/-- The character class of the regex `\w` (`[A-Za-z0-9_]`), whose complement
`[^\w]` is removed by `normalizeText`. -/
def isWordChar (c : Char) : Bool :=
  (0x61 ≤ c.toNat && c.toNat ≤ 0x7a) || (0x41 ≤ c.toNat && c.toNat ≤ 0x5a) ||
  (0x30 ≤ c.toNat && c.toNat ≤ 0x39) || c.toNat = 0x5f

/-- Character-wise model of `String.prototype.toLowerCase` on the ASCII
range: the twenty-six uppercase letters map to their lowercase forms and
every other character is unchanged. -/
def jsLowerChar (c : Char) : Char :=
  match c with
  | 'A' => 'a' | 'B' => 'b' | 'C' => 'c' | 'D' => 'd' | 'E' => 'e'
  | 'F' => 'f' | 'G' => 'g' | 'H' => 'h' | 'I' => 'i' | 'J' => 'j'
  | 'K' => 'k' | 'L' => 'l' | 'M' => 'm' | 'N' => 'n' | 'O' => 'o'
  | 'P' => 'p' | 'Q' => 'q' | 'R' => 'r' | 'S' => 's' | 'T' => 't'
  | 'U' => 'u' | 'V' => 'v' | 'W' => 'w' | 'X' => 'x' | 'Y' => 'y'
  | 'Z' => 'z'
  | other => other

/-- `String.prototype.toLowerCase`, applied character-wise. -/
def jsLower (s : String) : String :=
  ⟨s.data.map jsLowerChar⟩

/-- Drop the trailing characters satisfying `p`. -/
def dropTrailing (p : Char → Bool) (l : List Char) : List Char :=
  (l.reverse.dropWhile p).reverse

/-- `String.prototype.trim` on the underlying character list. -/
def trimList (l : List Char) : List Char :=
  dropTrailing isJsWhitespace (l.dropWhile isJsWhitespace)

/-- `String.prototype.trim`. -/
def jsTrim (s : String) : String :=
  ⟨trimList s.data⟩

/-- Worker for `collapseRuns`: `inRun` records whether the previous character
belonged to a run of characters satisfying `p` (for which a single `' '` has
already been emitted). -/
def collapseAux (p : Char → Bool) (inRun : Bool) : List Char → List Char
  | [] => []
  | c :: rest =>
    if p c then
      if inRun then collapseAux p true rest
      else ' ' :: collapseAux p true rest
    else c :: collapseAux p false rest

/-- `replace(/<class>+/g, ' ')`: every maximal run of characters satisfying
`p` is replaced by a single space. -/
def collapseRuns (p : Char → Bool) (l : List Char) : List Char :=
  collapseAux p false l

/-- `preprocessQuery` (`client-search-utils.ts` lines 48-56): trim, lower-case,
collapse runs of whitespace/hyphen/underscore/period into one space, then
collapse whitespace runs into one space. -/
def preprocessQuery (query : String) : String :=
  ⟨collapseRuns isJsWhitespace (collapseRuns isSepChar ((trimList query.data).map jsLowerChar))⟩

/-- `normalizeText` (server search module, `search-utils` lines 429-434):
lower-case, remove every whitespace/hyphen/underscore/period character, then
remove every remaining non-word character. -/
def normalizeText (text : String) : String :=
  ⟨((text.data.map jsLowerChar).filter (fun c => !isSepChar c)).filter isWordChar⟩

/-! ## Lexicographic comparison (model of `localeCompare`) -/

/-- Lexicographic strict order on character lists (by the character code
order). -/
def lexLt : List Char → List Char → Bool
  | [], [] => false
  | [], _ :: _ => true
  | _ :: _, [] => false
  | x :: xs, y :: ys => if x < y then true else if y < x then false else lexLt xs ys

/-- Lexicographic `≤` on character lists. -/
def lexLe (a b : List Char) : Bool :=
  !(lexLt b a)

/-- Modelled from the spec: `String.prototype.localeCompare` is a host
builtin absent from the repository; §4.4 and §8 of the spec read it as plain
ascending lexicographic comparison (negative / zero / positive result). -/
def localeCompare (a b : String) : Int :=
  if lexLt a.data b.data then -1 else if lexLt b.data a.data then 1 else 0

/-! ## Stable comparator sort (model of `Array.prototype.sort`) -/

/-- Insert `x` into `l` directly before the first element `y` with
`le x y`; used by `jsSortBy`. -/
def insertLe (le : α → α → Bool) (x : α) : List α → List α
  | [] => [x]
  | y :: ys => if le x y then x :: y :: ys else y :: insertLe le x ys

/-- Stable insertion sort by a boolean `le`.  `Array.prototype.sort` with a
consistent comparator `c` is required to produce a stable arrangement in
which `c` is nonpositive on every ordered pair; for a total preorder that
arrangement is unique, so this models the JS sort extensionally. -/
def jsSortBy (le : α → α → Bool) : List α → List α
  | [] => []
  | x :: xs => insertLe le x (jsSortBy le xs)

/-! ## Data model -/

/-- `SearchableRobot` (`client-search-utils.ts` lines 4-13).  The index
signature `[key: string]: any` admits extra fields; the one the module
reads is `average_rating` (used by the `rating` sort mode), carried here as
an optional rational number. -/
structure SearchableRobot where
  id : String
  name : String
  slug : String
  description : String
  tags : List String
  created_at : String
  status : String
  average_rating : Option Rat
deriving DecidableEq, Repr

/-- The type of the fuzzy backend: `createFuseInstance(robots)` followed by
`fuse.search(query, { limit })`, returning the matched items. -/
abbrev Fuse := List SearchableRobot → String → Nat → List SearchableRobot

/-- The exact-match predicate of `searchRobotsClientSide` (lines 79-82):
`name` or `slug` equals the raw query, compared lower-cased (the `||` is the
JS short-circuit disjunction). -/
def isExactMatch (query : String) (r : SearchableRobot) : Bool :=
  jsLower r.name == jsLower query || jsLower r.slug == jsLower query

/-- `searchRobotsClientSide` (lines 59-95). -/
def searchRobotsClientSide (fuse : Fuse) (robots : List SearchableRobot)
    (query : String) (limit : Nat) : List SearchableRobot :=
  if jsTrim query = "" then []
  else
    let preprocessedQuery := preprocessQuery query
    let results := fuse robots preprocessedQuery limit
    let exactMatches := robots.filter (isExactMatch query)
    if 0 < exactMatches.length then
      (exactMatches ++ results.filter (fun r => !(exactMatches.any (fun e => e.id == r.id)))).take limit
    else results

/-- `searchRobotsWithTagFilter` (lines 98-112).  `tag` is `string | null |
undefined`; the guard `tag && tag !== 'all'` holds when the tag is present,
non-empty and not the sentinel `'all'`. -/
def searchRobotsWithTagFilter (fuse : Fuse) (robots : List SearchableRobot)
    (query : String) (tag : Option String) (limit : Nat) : List SearchableRobot :=
  let filteredRobots :=
    match tag with
    | some t => if t ≠ "" ∧ t ≠ "all" then robots.filter (fun r => r.tags.contains t) else robots
    | none => robots
  searchRobotsClientSide fuse filteredRobots query limit

/-- `sortSearchResults` (lines 115-143).  `getTime` is the host's
`new Date(s).getTime()` parser, taken as a parameter; `sortBy` is carried as
a raw string so that the `default` fall-through of the `switch` is visible.
Each comparator `c a b` of the source appears as `c a b ≤ 0`. -/
def sortSearchResults (getTime : String → Int) (results : List SearchableRobot)
    (sortBy : String) : List SearchableRobot :=
  if sortBy = "newest" then
    jsSortBy (fun a b => decide (getTime b.created_at ≤ getTime a.created_at)) results
  else if sortBy = "oldest" then
    jsSortBy (fun a b => decide (getTime a.created_at ≤ getTime b.created_at)) results
  else if sortBy = "name" then
    jsSortBy (fun a b => decide (localeCompare a.name b.name ≤ 0)) results
  else if sortBy = "rating" then
    jsSortBy (fun a b => decide (b.average_rating.getD 0 ≤ a.average_rating.getD 0)) results
  else results

/-- `comprehensiveSearch` (lines 146-168); `sortBy` defaults to
`"relevance"` and `limit` to `50` at the destructuring, which callers of this
embedding pass explicitly. -/
def comprehensiveSearch (fuse : Fuse) (getTime : String → Int)
    (robots : List SearchableRobot) (query : String) (tag : Option String)
    (sortBy : String) (limit : Nat) : List SearchableRobot :=
  if jsTrim query = "" then
    let filtered :=
      match tag with
      | some t => if t ≠ "" ∧ t ≠ "all" then robots.filter (fun r => r.tags.contains t) else robots
      | none => robots
    (sortSearchResults getTime filtered sortBy).take limit
  else
    sortSearchResults getTime (searchRobotsWithTagFilter fuse robots query tag limit) sortBy

/-! ## A concrete fuzzy backend, modelled from the spec -/

/-- Does `needle` occur at the head of `hay`? -/
def startsWithL : List Char → List Char → Bool
  | _, [] => true
  | [], _ :: _ => false
  | h :: hs, n :: ns => h == n && startsWithL hs ns

/-- Does `needle` occur contiguously inside `hay`? -/
def containsL : List Char → List Char → Bool
  | [], needle => needle.isEmpty
  | h :: hs, needle => startsWithL (h :: hs) needle || containsL hs needle

/-- Modelled from the spec: the Fuse.js scoring is not part of the
repository; §4.2 describes a weighted multi-field approximate match with a
hard cutoff (name weighted over slug over description over tags), realized
here as normalized-substring hits with those relative weights. -/
def fuseScore (query : String) (r : SearchableRobot) : Nat :=
  let q := (normalizeText query).data
  if q.isEmpty then 0
  else
    (if containsL (normalizeText r.name).data q then 40 else 0) +
    (if containsL (normalizeText r.slug).data q then 30 else 0) +
    (if containsL (normalizeText r.description).data q then 20 else 0) +
    (if r.tags.any (fun t => containsL (normalizeText t).data q) then 10 else 0)

/-- Modelled from the spec: a concrete executable fuzzy backend per §4.2 —
entries below the cutoff are excluded, the rest are ordered by descending
score with ties in original order, and the `limit` option is honored.  It
instantiates the witnesses and counterexamples; the theorems themselves
quantify over the backend. -/
def fuseModel : Fuse := fun robots query limit =>
  (jsSortBy (fun a b => decide (fuseScore query b ≤ fuseScore query a))
    (robots.filter (fun r => 0 < fuseScore query r))).take limit

/-! ## Concrete entries used by witnesses and counterexamples -/

/-- The `{name: "SO-100"}` entry of the spec's §8 exact-match scenario. -/
def so100Entry : SearchableRobot :=
  ⟨"r1", "SO-100", "so-100", "Industrial arm", ["arm"], "2024-01-01", "published", none⟩

/-- The `{name: "SO-101"}` entry of the spec's §8 exact-match scenario. -/
def so101Entry : SearchableRobot :=
  ⟨"r2", "SO-101", "so-101", "Industrial arm", ["arm"], "2024-02-01", "published", none⟩

/-- The `{name: "Pupper v3"}` entry of the spec's §8 exact-match scenario. -/
def pupperEntry : SearchableRobot :=
  ⟨"r3", "Pupper v3", "pupper-v3", "Quadruped", ["education"], "2024-03-01", "published", none⟩

/-- An entry whose raw lower-cased name is `"so-100"`. -/
def hyphenNamedEntry : SearchableRobot :=
  ⟨"a", "SO-100", "so-100", "", [], "2024-01-01", "published", none⟩

/-- An entry whose raw lower-cased name is `"so 100"`. -/
def spaceNamedEntry : SearchableRobot :=
  ⟨"b", "so 100", "sob", "", [], "2024-01-02", "published", none⟩

/-- A concrete date parser used to instantiate witnesses (the theorems
quantify over the parser). -/
def sampleGetTime (s : String) : Int :=
  (s.length : Int)

/-! ## Exception-sensitive model (for the totality claim)

The TypeScript interface declares `name`/`slug`/`description`/`tags` as
required, but the totality claim is about entries in which they are absent
(`undefined`).  This second embedding makes those fields optional and makes
every property access that JS would throw a `TypeError` on (calling
`.toLowerCase()`/`.includes`/`.localeCompare` on `undefined`) an explicit
`Except` failure, while accesses JS tolerates (passing `undefined` to Fuse,
`new Date(undefined)`, `undefined || 0`) stay total. -/

/-- `SearchableRobot` with the four fields of the totality claim optional. -/
structure SearchableRobotOpt where
  id : String
  name : Option String
  slug : Option String
  description : Option String
  tags : Option (List String)
  created_at : String
  status : String
  average_rating : Option Rat
deriving DecidableEq, Repr

/-- The runtime error a property access on `undefined` raises. -/
inductive JsError where
  | typeError
deriving DecidableEq, Repr

/-- Read a field whose value is about to be used as an object: `undefined`
raises `TypeError`. -/
def jsField : Option α → Except JsError α
  | some v => .ok v
  | none => .error .typeError

/-- Fuzzy backend over optional-field entries.  It is total: Fuse.js skips a
missing key rather than throwing (spec §4.2 treats a missing field as empty). -/
abbrev FuseOpt := List SearchableRobotOpt → String → Nat → List SearchableRobotOpt

/-- Backend stand-in used to instantiate witnesses and counterexamples of the
optional-field model; the theorems quantify over the backend, and the claim
settled on this model fails in the exact-match filter, after any backend
call has already returned. -/
def fuseModelOpt : FuseOpt := fun _ _ _ => []

/-- `Array.prototype.filter` with a predicate that may throw: elements are
tested left to right and the first failure aborts. -/
def filterE (p : α → Except ε Bool) : List α → Except ε (List α)
  | [] => .ok []
  | x :: xs =>
    match p x with
    | .error e => .error e
    | .ok b =>
      match filterE p xs with
      | .error e => .error e
      | .ok rest => .ok (if b then x :: rest else rest)

/-- `Array.prototype.map` with a function that may throw. -/
def mapE (f : α → Except ε β) : List α → Except ε (List β)
  | [] => .ok []
  | x :: xs =>
    match f x with
    | .error e => .error e
    | .ok y =>
      match mapE f xs with
      | .error e => .error e
      | .ok rest => .ok (y :: rest)

/-- The exact-match test of lines 80-81 over optional fields:
`robot.name.toLowerCase() === q || robot.slug.toLowerCase() === q`, with the
JS short-circuit (a missing `slug` is only reached when the name test is
false). -/
def exactCheckOpt (query : String) (r : SearchableRobotOpt) : Except JsError Bool :=
  match jsField r.name with
  | .error e => .error e
  | .ok n =>
    if jsLower n == jsLower query then .ok true
    else
      match jsField r.slug with
      | .error e => .error e
      | .ok s => .ok (jsLower s == jsLower query)

/-- `robot.tags.includes(tag)` over an optional `tags` field: reading
`.includes` of a missing `tags` throws. -/
def tagCheckOpt (t : String) (r : SearchableRobotOpt) : Except JsError Bool :=
  match jsField r.tags with
  | .error e => .error e
  | .ok ts => .ok (ts.contains t)

/-- `a.name.localeCompare(...)` needs `a.name` to be an object: the sort key
of the `name` mode. -/
def nameKeyOpt (r : SearchableRobotOpt) : Except JsError (SearchableRobotOpt × String) :=
  match jsField r.name with
  | .error e => .error e
  | .ok n => .ok (r, n)

/-- `searchRobotsClientSide` over optional-field entries. -/
def searchRobotsClientSideOpt (fuse : FuseOpt) (robots : List SearchableRobotOpt)
    (query : String) (limit : Nat) : Except JsError (List SearchableRobotOpt) :=
  if jsTrim query = "" then .ok []
  else
    let results := fuse robots (preprocessQuery query) limit
    match filterE (exactCheckOpt query) robots with
    | .error e => .error e
    | .ok exactMatches =>
      if 0 < exactMatches.length then
        .ok ((exactMatches ++ results.filter
          (fun r => !(exactMatches.any (fun e => e.id == r.id)))).take limit)
      else .ok results

/-- The pool restriction `tag && tag !== 'all' ? robots.filter(robot =>
robot.tags.includes(tag)) : robots` over optional-field entries. -/
def tagPoolE (robots : List SearchableRobotOpt) (tag : Option String) :
    Except JsError (List SearchableRobotOpt) :=
  match tag with
  | some t => if t ≠ "" ∧ t ≠ "all" then filterE (tagCheckOpt t) robots else .ok robots
  | none => .ok robots

/-- `searchRobotsWithTagFilter` over optional-field entries: when a tag
filter is active, `robot.tags.includes(tag)` throws on a missing `tags`. -/
def searchRobotsWithTagFilterOpt (fuse : FuseOpt) (robots : List SearchableRobotOpt)
    (query : String) (tag : Option String) (limit : Nat) :
    Except JsError (List SearchableRobotOpt) :=
  match tagPoolE robots tag with
  | .error e => .error e
  | .ok filteredRobots => searchRobotsClientSideOpt fuse filteredRobots query limit

/-- `sortSearchResults` over optional-field entries.  Only the `name` mode
reads an optional field as an object (`a.name.localeCompare(...)`); JS calls
the comparator on an engine-chosen schedule, modelled here as evaluating the
sort key of every element — under the hypotheses of the theorems below (the
field present on every entry) the two coincide. -/
def sortSearchResultsOpt (getTime : String → Int) (results : List SearchableRobotOpt)
    (sortBy : String) : Except JsError (List SearchableRobotOpt) :=
  if sortBy = "newest" then
    .ok (jsSortBy (fun a b => decide (getTime b.created_at ≤ getTime a.created_at)) results)
  else if sortBy = "oldest" then
    .ok (jsSortBy (fun a b => decide (getTime a.created_at ≤ getTime b.created_at)) results)
  else if sortBy = "name" then
    match mapE nameKeyOpt results with
    | .error e => .error e
    | .ok keyed =>
      .ok ((jsSortBy (fun a b => decide (localeCompare a.2 b.2 ≤ 0)) keyed).map (·.1))
  else if sortBy = "rating" then
    .ok (jsSortBy (fun a b => decide (b.average_rating.getD 0 ≤ a.average_rating.getD 0)) results)
  else .ok results

/-- `comprehensiveSearch` over optional-field entries. -/
def comprehensiveSearchOpt (fuse : FuseOpt) (getTime : String → Int)
    (robots : List SearchableRobotOpt) (query : String) (tag : Option String)
    (sortBy : String) (limit : Nat) : Except JsError (List SearchableRobotOpt) :=
  if jsTrim query = "" then
    match tagPoolE robots tag with
    | .error e => .error e
    | .ok filtered =>
      match sortSearchResultsOpt getTime filtered sortBy with
      | .error e => .error e
      | .ok sorted => .ok (sorted.take limit)
  else
    match searchRobotsWithTagFilterOpt fuse robots query tag limit with
    | .error e => .error e
    | .ok sr => sortSearchResultsOpt getTime sr sortBy

/-- An entry with no `name` field (slug present): the exact-match filter of
`searchRobotsClientSide` evaluates `robot.name.toLowerCase()` on it. -/
def namelessEntry : SearchableRobotOpt :=
  ⟨"x1", none, some "x", some "", some [], "2024-01-01", "published", none⟩

/-- A fully-populated optional-field entry, for witnesses. -/
def completeOptEntry : SearchableRobotOpt :=
  ⟨"y1", some "SO-100", some "so-100", some "Industrial arm", some ["arm"], "2024-01-01", "published", none⟩

/-! ## Reference/store model (for the frame claim)

JS arrays are heap references and `Array.prototype.sort` rearranges its
receiver in place, so whether `sortSearchResults` disturbs the caller's array
is an aliasing question.  A store is a list of allocated arrays, an array
reference is its index, and allocation appends. -/

/-- The heap of allocated entry arrays. -/
abbrev Store := List (List SearchableRobot)

/-- Dereference an array (out-of-range reads answer the empty array; the
theorems only dereference allocated references). -/
def readRef (σ : Store) (r : Nat) : List SearchableRobot :=
  σ.getD r []

/-- `sortSearchResults` on an array reference.  In the four sort modes,
`[...results]` allocates a fresh array (index `σ.length`) holding the same
entries and `.sort` rearranges that fresh array in place; the `relevance`
and `default` branches return the incoming reference itself with the store
untouched. -/
def sortSearchResultsRef (getTime : String → Int) (σ : Store) (ref : Nat)
    (sortBy : String) : Nat × Store :=
  if sortBy = "newest" then
    (σ.length, σ ++ [jsSortBy (fun a b => decide (getTime b.created_at ≤ getTime a.created_at)) (readRef σ ref)])
  else if sortBy = "oldest" then
    (σ.length, σ ++ [jsSortBy (fun a b => decide (getTime a.created_at ≤ getTime b.created_at)) (readRef σ ref)])
  else if sortBy = "name" then
    (σ.length, σ ++ [jsSortBy (fun a b => decide (localeCompare a.name b.name ≤ 0)) (readRef σ ref)])
  else if sortBy = "rating" then
    (σ.length, σ ++ [jsSortBy (fun a b => decide (b.average_rating.getD 0 ≤ a.average_rating.getD 0)) (readRef σ ref)])
  else (ref, σ)

/-- The no-query tag restriction of `comprehensiveSearch` on a reference:
`tag && tag !== 'all' ? robots.filter(...) : robots` — an active tag
allocates a fresh filtered array, otherwise `filtered` IS the caller's
array (the `: robots` branch aliases, it does not copy). -/
def tagPoolRef (σ : Store) (ref : Nat) (tag : Option String) : Nat × Store :=
  match tag with
  | some t =>
    if t ≠ "" ∧ t ≠ "all" then
      (σ.length, σ ++ [(readRef σ ref).filter (fun r => r.tags.contains t)])
    else (ref, σ)
  | none => (ref, σ)

/-- `comprehensiveSearch` on an array reference.  In the no-query branch
with no active tag the subsequent sort receives the caller's reference
itself; `.filter`, `.slice` and `searchRobotsWithTagFilter` allocate fresh
arrays. -/
def comprehensiveSearchRef (fuse : Fuse) (getTime : String → Int) (σ : Store)
    (ref : Nat) (query : String) (tag : Option String) (sortBy : String)
    (limit : Nat) : Nat × Store :=
  if jsTrim query = "" then
    let fil := tagPoolRef σ ref tag
    let srt := sortSearchResultsRef getTime fil.2 fil.1 sortBy
    (srt.2.length, srt.2 ++ [(readRef srt.2 srt.1).take limit])
  else
    let srch := σ ++ [searchRobotsWithTagFilter fuse (readRef σ ref) query tag limit]
    sortSearchResultsRef getTime srch σ.length sortBy

/-! ## Hypotheses on the fuzzy backend, and run-structure predicates -/

/-- Guarantee of the fuzzy backend: every returned item comes from the
indexed collection. -/
def FuseSubset (fuse : Fuse) : Prop :=
  ∀ robots query limit, ∀ r ∈ fuse robots query limit, r ∈ robots

/-- Guarantee of the fuzzy backend: the `limit` search option is honored. -/
def FuseLimit (fuse : Fuse) : Prop :=
  ∀ robots query limit, (fuse robots query limit).length ≤ limit

/-- Guarantee of the fuzzy backend: each indexed item is returned at most
once, so id-distinct collections yield id-distinct result lists. -/
def FuseNodupIds (fuse : Fuse) : Prop :=
  ∀ robots query limit, (robots.map SearchableRobot.id).Nodup →
    ((fuse robots query limit).map SearchableRobot.id).Nodup

/-- `FuseSubset` for the optional-field backend. -/
def FuseOptSubset (fuse : FuseOpt) : Prop :=
  ∀ robots query limit, ∀ r ∈ fuse robots query limit, r ∈ robots

/-- The first character (if any) does not satisfy `p`. -/
def headNot (p : Char → Bool) : List Char → Prop
  | [] => True
  | c :: _ => p c = false

/-- No two adjacent characters both satisfy `p`. -/
def NoTwo (p : Char → Bool) : List Char → Prop
  | [] => True
  | [_] => True
  | c₁ :: c₂ :: rest => ¬(p c₁ = true ∧ p c₂ = true) ∧ NoTwo p (c₂ :: rest)

/-! ## Character-level lemmas -/

theorem char_toNat_inj {a b : Char} (h : a.toNat = b.toNat) : a = b := by
  have ha := Char.ofNat_toNat a
  have hb := Char.ofNat_toNat b
  rw [← ha, ← hb, h]

theorem jsLowerChar_char (c : Char) :
    (¬(65 ≤ c.toNat ∧ c.toNat ≤ 90) ∧ jsLowerChar c = c) ∨
    ((65 ≤ c.toNat ∧ c.toNat ≤ 90) ∧ (jsLowerChar c).toNat = c.toNat + 32) := by
  unfold jsLowerChar
  split
  all_goals try (refine Or.inr ⟨?_, ?_⟩ <;> decide)
  rename_i h1 h2 h3 h4 h5 h6 h7 h8 h9 h10 h11 h12 h13 h14 h15 h16 h17 h18 h19 h20 h21 h22 h23 h24 h25 h26
  refine Or.inl ⟨?_, rfl⟩
  have e1 : c.toNat ≠ 65 := fun hh => h1 (char_toNat_inj (by rw [hh]; decide))
  have e2 : c.toNat ≠ 66 := fun hh => h2 (char_toNat_inj (by rw [hh]; decide))
  have e3 : c.toNat ≠ 67 := fun hh => h3 (char_toNat_inj (by rw [hh]; decide))
  have e4 : c.toNat ≠ 68 := fun hh => h4 (char_toNat_inj (by rw [hh]; decide))
  have e5 : c.toNat ≠ 69 := fun hh => h5 (char_toNat_inj (by rw [hh]; decide))
  have e6 : c.toNat ≠ 70 := fun hh => h6 (char_toNat_inj (by rw [hh]; decide))
  have e7 : c.toNat ≠ 71 := fun hh => h7 (char_toNat_inj (by rw [hh]; decide))
  have e8 : c.toNat ≠ 72 := fun hh => h8 (char_toNat_inj (by rw [hh]; decide))
  have e9 : c.toNat ≠ 73 := fun hh => h9 (char_toNat_inj (by rw [hh]; decide))
  have e10 : c.toNat ≠ 74 := fun hh => h10 (char_toNat_inj (by rw [hh]; decide))
  have e11 : c.toNat ≠ 75 := fun hh => h11 (char_toNat_inj (by rw [hh]; decide))
  have e12 : c.toNat ≠ 76 := fun hh => h12 (char_toNat_inj (by rw [hh]; decide))
  have e13 : c.toNat ≠ 77 := fun hh => h13 (char_toNat_inj (by rw [hh]; decide))
  have e14 : c.toNat ≠ 78 := fun hh => h14 (char_toNat_inj (by rw [hh]; decide))
  have e15 : c.toNat ≠ 79 := fun hh => h15 (char_toNat_inj (by rw [hh]; decide))
  have e16 : c.toNat ≠ 80 := fun hh => h16 (char_toNat_inj (by rw [hh]; decide))
  have e17 : c.toNat ≠ 81 := fun hh => h17 (char_toNat_inj (by rw [hh]; decide))
  have e18 : c.toNat ≠ 82 := fun hh => h18 (char_toNat_inj (by rw [hh]; decide))
  have e19 : c.toNat ≠ 83 := fun hh => h19 (char_toNat_inj (by rw [hh]; decide))
  have e20 : c.toNat ≠ 84 := fun hh => h20 (char_toNat_inj (by rw [hh]; decide))
  have e21 : c.toNat ≠ 85 := fun hh => h21 (char_toNat_inj (by rw [hh]; decide))
  have e22 : c.toNat ≠ 86 := fun hh => h22 (char_toNat_inj (by rw [hh]; decide))
  have e23 : c.toNat ≠ 87 := fun hh => h23 (char_toNat_inj (by rw [hh]; decide))
  have e24 : c.toNat ≠ 88 := fun hh => h24 (char_toNat_inj (by rw [hh]; decide))
  have e25 : c.toNat ≠ 89 := fun hh => h25 (char_toNat_inj (by rw [hh]; decide))
  have e26 : c.toNat ≠ 90 := fun hh => h26 (char_toNat_inj (by rw [hh]; decide))
  omega

theorem jsLowerChar_idem (c : Char) : jsLowerChar (jsLowerChar c) = jsLowerChar c := by
  rcases jsLowerChar_char c with ⟨_, e⟩ | ⟨hr, e⟩
  · rw [e]; exact e
  · rcases jsLowerChar_char (jsLowerChar c) with ⟨_, e2⟩ | ⟨hr2, _⟩
    · exact e2
    · omega

theorem isJsWhitespace_iff (c : Char) : isJsWhitespace c = true ↔
    (c.toNat = 0x20 ∨ c.toNat = 0x9 ∨ c.toNat = 0xa ∨ c.toNat = 0xd ∨
     c.toNat = 0xb ∨ c.toNat = 0xc ∨ c.toNat = 0xa0 ∨ c.toNat = 0xfeff ∨
     c.toNat = 0x1680 ∨ (0x2000 ≤ c.toNat ∧ c.toNat ≤ 0x200a) ∨
     c.toNat = 0x2028 ∨ c.toNat = 0x2029 ∨ c.toNat = 0x202f ∨ c.toNat = 0x3000) := by
  simp [isJsWhitespace, Bool.or_eq_true, decide_eq_true_eq, Bool.and_eq_true, or_assoc]

theorem ws_jsLowerChar (c : Char) : isJsWhitespace (jsLowerChar c) = isJsWhitespace c := by
  rcases jsLowerChar_char c with ⟨_, e⟩ | ⟨hr, e⟩
  · rw [e]
  · have hf : ∀ d : Char, 65 ≤ d.toNat → d.toNat ≤ 130 → isJsWhitespace d = false := by
      intro d hd1 hd2
      cases hb : isJsWhitespace d
      · rfl
      · have := (isJsWhitespace_iff d).mp hb
        omega
    rw [hf _ (by omega) (by omega), hf _ (by omega) (by omega)]

theorem sep_of_ws {c : Char} (h : isJsWhitespace c = true) : isSepChar c = true := by
  simp [isSepChar, h]

/-! ## Lemmas on the stable sort -/

theorem insertLe_perm (le : α → α → Bool) (x : α) (l : List α) :
    (insertLe le x l).Perm (x :: l) := by
  induction l with
  | nil => exact List.Perm.refl _
  | cons y ys ih =>
    unfold insertLe
    by_cases h : le x y = true
    · simp [h]
    · simp only [h, if_false]
      exact (ih.cons y).trans (List.Perm.swap x y ys)

theorem jsSortBy_perm (le : α → α → Bool) (l : List α) : (jsSortBy le l).Perm l := by
  induction l with
  | nil => exact List.Perm.refl _
  | cons x xs ih => exact (insertLe_perm le x (jsSortBy le xs)).trans (ih.cons x)

theorem insertLe_pairwise (le : α → α → Bool)
    (htot : ∀ a b, le a b = true ∨ le b a = true)
    (htrans : ∀ a b c, le a b = true → le b c = true → le a c = true)
    (x : α) (l : List α) (h : l.Pairwise (fun a b => le a b = true)) :
    (insertLe le x l).Pairwise (fun a b => le a b = true) := by
  induction l with
  | nil => simp [insertLe]
  | cons y ys ih =>
    rcases List.pairwise_cons.mp h with ⟨hy, hys⟩
    unfold insertLe
    by_cases hxy : le x y = true
    · simp only [hxy, if_true]
      refine List.pairwise_cons.mpr ⟨?_, h⟩
      intro z hz
      rcases List.mem_cons.mp hz with rfl | hz
      · exact hxy
      · exact htrans x y z hxy (hy z hz)
    · simp only [hxy, if_false]
      refine List.pairwise_cons.mpr ⟨?_, ih hys⟩
      intro z hz
      rcases List.mem_cons.mp ((insertLe_perm le x ys).mem_iff.mp hz) with hz' | hz
      · rcases htot x y with hx | hx
        · exact absurd hx hxy
        · rw [hz']; exact hx
      · exact hy z hz

theorem jsSortBy_pairwise (le : α → α → Bool)
    (htot : ∀ a b, le a b = true ∨ le b a = true)
    (htrans : ∀ a b c, le a b = true → le b c = true → le a c = true)
    (l : List α) : (jsSortBy le l).Pairwise (fun a b => le a b = true) := by
  induction l with
  | nil => simp [jsSortBy]
  | cons x xs ih => exact insertLe_pairwise le htot htrans x _ ih

/-! ## Lemmas on the lexicographic comparison -/

theorem lexLt_nil_right (a : List Char) : lexLt a [] = false := by
  cases a <;> rfl

theorem lexLt_asymm : ∀ (a b : List Char), lexLt a b = true → lexLt b a = false := by
  intro a
  induction a with
  | nil =>
    intro b h
    cases b with
    | nil => simp [lexLt] at h
    | cons y ys => rfl
  | cons x xs ih =>
    intro b h
    cases b with
    | nil => simp [lexLt] at h
    | cons y ys =>
      simp only [lexLt] at h ⊢
      by_cases h1 : x < y
      · have h2 : ¬ y < x := lt_asymm h1
        simp [h1, h2]
      · by_cases h2 : y < x
        · simp [h1, h2] at h
        · simp only [h1, h2, if_false] at h ⊢
          exact ih ys h

theorem lexLt_false_trans : ∀ (a b c : List Char),
    lexLt b a = false → lexLt c b = false → lexLt c a = false := by
  intro a
  induction a with
  | nil =>
    intro b c _ _
    exact lexLt_nil_right c
  | cons x xs ih =>
    intro b c h1 h2
    cases b with
    | nil => simp [lexLt] at h1
    | cons y ys =>
      cases c with
      | nil => simp [lexLt] at h2
      | cons z zs =>
        simp only [lexLt] at h1 h2 ⊢
        by_cases hyx : y < x
        · simp [hyx] at h1
        · by_cases hzy : z < y
          · simp [hzy] at h2
          · by_cases hxy : x < y
            · have hyz : y ≤ z := le_of_not_lt hzy
              have hxz : x < z := lt_of_lt_of_le hxy hyz
              have hzx : ¬ z < x := lt_asymm hxz
              simp [hzx, hxz]
            · have hxy' : x = y := le_antisymm (le_of_not_lt hyx) (le_of_not_lt hxy)
              subst hxy'
              simp only [hyx, if_false] at h1
              simp only [hzy, if_false] at h2 ⊢
              by_cases hxz : x < z
              · simp [hxz]
              · simp only [hxz, if_false] at h2 ⊢
                exact ih ys zs h1 h2

theorem localeCompare_le_iff (a b : String) :
    localeCompare a b ≤ 0 ↔ lexLe a.data b.data = true := by
  unfold localeCompare lexLe
  by_cases h1 : lexLt a.data b.data = true
  · simp [h1, lexLt_asymm _ _ h1]
  · by_cases h2 : lexLt b.data a.data = true
    · simp [h1, h2]
    · simp [h1, h2]

/-! ## Lemmas on run collapsing and trimming -/

theorem collapseAux_mem_class (p : Char → Bool) :
    ∀ (l : List Char) (b : Bool), ∀ c ∈ collapseAux p b l, c = ' ' ∨ p c = false := by
  intro l
  induction l with
  | nil => intro b c hc; simp [collapseAux] at hc
  | cons d rest ih =>
    intro b c hc
    by_cases hd : p d = true
    · simp only [collapseAux, hd, if_true] at hc
      cases b with
      | false =>
        rcases List.mem_cons.mp hc with rfl | hc
        · exact Or.inl rfl
        · exact ih true c hc
      | true => exact ih true c hc
    · simp only [collapseAux, hd, if_false] at hc
      rcases List.mem_cons.mp hc with rfl | hc
      · exact Or.inr (by simpa using hd)
      · exact ih false c hc

theorem collapseAux_mem_orig (p : Char → Bool) :
    ∀ (l : List Char) (b : Bool), ∀ c ∈ collapseAux p b l, c = ' ' ∨ c ∈ l := by
  intro l
  induction l with
  | nil => intro b c hc; simp [collapseAux] at hc
  | cons d rest ih =>
    intro b c hc
    by_cases hd : p d = true
    · simp only [collapseAux, hd, if_true] at hc
      cases b with
      | false =>
        rcases List.mem_cons.mp hc with rfl | hc
        · exact Or.inl rfl
        · rcases ih true c hc with h | h
          · exact Or.inl h
          · exact Or.inr (List.mem_cons_of_mem d h)
      | true =>
        rcases ih true c hc with h | h
        · exact Or.inl h
        · exact Or.inr (List.mem_cons_of_mem d h)
    · simp only [collapseAux, hd, if_false] at hc
      rcases List.mem_cons.mp hc with rfl | hc
      · exact Or.inr (List.mem_cons_self c rest)
      · rcases ih false c hc with h | h
        · exact Or.inl h
        · exact Or.inr (List.mem_cons_of_mem d h)

theorem collapseAux_headNot (p : Char → Bool) :
    ∀ l : List Char, headNot p (collapseAux p true l) := by
  intro l
  induction l with
  | nil => simp [collapseAux, headNot]
  | cons d rest ih =>
    by_cases hd : p d = true
    · simpa only [collapseAux, hd, if_true] using ih
    · simp only [collapseAux, hd, if_false, headNot]
      simpa using hd

theorem NoTwo_tail {p : Char → Bool} {c : Char} {l : List Char}
    (h : NoTwo p (c :: l)) : NoTwo p l := by
  cases l with
  | nil => simp [NoTwo]
  | cons d rest => exact h.2

theorem noTwo_cons_of_headNot {p : Char → Bool} {c : Char} {l : List Char}
    (h : NoTwo p l) (hh : headNot p l) : NoTwo p (c :: l) := by
  cases l with
  | nil => simp [NoTwo]
  | cons d rest =>
    refine ⟨?_, h⟩
    rintro ⟨-, hd⟩
    rw [hh] at hd
    exact Bool.false_ne_true hd

theorem noTwo_cons_of_not {p : Char → Bool} {c : Char} {l : List Char}
    (h : NoTwo p l) (hc : p c = false) : NoTwo p (c :: l) := by
  cases l with
  | nil => simp [NoTwo]
  | cons d rest =>
    refine ⟨?_, h⟩
    rintro ⟨hc', -⟩
    rw [hc] at hc'
    exact Bool.false_ne_true hc'

theorem collapseAux_noTwo (p : Char → Bool) :
    ∀ (l : List Char) (b : Bool), NoTwo p (collapseAux p b l) := by
  intro l
  induction l with
  | nil => intro b; simp [collapseAux, NoTwo]
  | cons d rest ih =>
    intro b
    by_cases hd : p d = true
    · cases b with
      | false =>
        simp only [collapseAux, hd, if_true]
        exact noTwo_cons_of_headNot (ih true) (collapseAux_headNot p rest)
      | true => simpa only [collapseAux, hd, if_true] using ih true
    · simp only [collapseAux, hd, if_false]
      exact noTwo_cons_of_not (ih false) (by simpa using hd)

theorem collapseAux_id (p : Char → Bool) :
    ∀ l : List Char, (∀ c ∈ l, p c = true → c = ' ') → NoTwo p l →
      (collapseAux p false l = l ∧ (headNot p l → collapseAux p true l = l)) := by
  intro l
  induction l with
  | nil => exact fun _ _ => ⟨rfl, fun _ => rfl⟩
  | cons d rest ih =>
    intro hmem hnt
    have hmem' : ∀ c ∈ rest, p c = true → c = ' ' :=
      fun c hc => hmem c (List.mem_cons_of_mem d hc)
    have hnt' : NoTwo p rest := NoTwo_tail hnt
    have ihr := ih hmem' hnt'
    constructor
    · by_cases hd : p d = true
      · have hd' : d = ' ' := hmem d (List.mem_cons_self d rest) hd
        have hrest : headNot p rest := by
          cases rest with
          | nil => simp [headNot]
          | cons e rest' =>
            show p e = false
            rcases hnt with ⟨h1, -⟩
            cases he : p e with
            | false => rfl
            | true => exact absurd ⟨hd, he⟩ h1
        simp only [collapseAux, hd, if_true]
        rw [ihr.2 hrest, hd']
        simp
      · simp only [collapseAux, hd, Bool.false_eq_true, if_false]
        rw [ihr.1]
    · intro hh
      have hd : p d = false := hh
      simp only [collapseAux, hd, Bool.false_eq_true, if_false]
      rw [ihr.1]

theorem noTwo_append_right {p : Char → Bool} :
    ∀ {l₁ l₂ : List Char}, NoTwo p (l₁ ++ l₂) → NoTwo p l₂ := by
  intro l₁
  induction l₁ with
  | nil => exact fun h => h
  | cons c rest ih => exact fun h => ih (NoTwo_tail h)

theorem noTwo_append_left {p : Char → Bool} :
    ∀ {l₁ l₂ : List Char}, NoTwo p (l₁ ++ l₂) → NoTwo p l₁ := by
  intro l₁
  induction l₁ with
  | nil => intro l₂ _; simp [NoTwo]
  | cons c rest ih =>
    intro l₂ h
    cases rest with
    | nil => simp [NoTwo]
    | cons d rest' =>
      rcases h with ⟨h1, h2⟩
      exact ⟨h1, ih h2⟩

theorem noTwo_mono {p q : Char → Bool} (himp : ∀ c, q c = true → p c = true) :
    ∀ {l : List Char}, NoTwo p l → NoTwo q l := by
  intro l
  induction l with
  | nil => exact fun h => h
  | cons c rest ih =>
    intro h
    cases rest with
    | nil => simp [NoTwo]
    | cons d rest' =>
      rcases h with ⟨h1, h2⟩
      exact ⟨fun ⟨hq1, hq2⟩ => h1 ⟨himp c hq1, himp d hq2⟩, ih h2⟩

theorem trimList_parts (l : List Char) : ∃ s u, l = s ++ trimList l ++ u := by
  unfold trimList dropTrailing
  rcases List.dropWhile_suffix (l := l) isJsWhitespace with ⟨s, hs⟩
  rcases List.dropWhile_suffix (l := (l.dropWhile isJsWhitespace).reverse) isJsWhitespace
    with ⟨t, ht⟩
  refine ⟨s, t.reverse, ?_⟩
  have hm : l.dropWhile isJsWhitespace =
      ((l.dropWhile isJsWhitespace).reverse.dropWhile isJsWhitespace).reverse ++ t.reverse := by
    have := congrArg List.reverse ht
    rw [List.reverse_append] at this
    simpa using this.symm
  rw [List.append_assoc, ← hm, hs]

theorem map_id_of_fixed {f : Char → Char} :
    ∀ l : List Char, (∀ c ∈ l, f c = c) → l.map f = l := by
  intro l
  induction l with
  | nil => intro _; rfl
  | cons c rest ih =>
    intro h
    simp only [List.map_cons]
    rw [h c (List.mem_cons_self c rest), ih (fun d hd => h d (List.mem_cons_of_mem c hd))]

theorem collapseWs_after_sep (m : List Char) :
    collapseRuns isJsWhitespace (collapseRuns isSepChar m) = collapseRuns isSepChar m := by
  unfold collapseRuns
  refine (collapseAux_id isJsWhitespace _ ?_ ?_).1
  · intro c hc hws
    rcases collapseAux_mem_class isSepChar m false c hc with h | h
    · exact h
    · rw [sep_of_ws hws] at h
      exact absurd h (by simp)
  · exact noTwo_mono (fun c => sep_of_ws) (collapseAux_noTwo isSepChar m false)

/-! ## Idempotence of the two normalizers -/

theorem normalizeList_idem (l : List Char) :
    (((((((l.map jsLowerChar).filter (fun c => !isSepChar c)).filter isWordChar).map jsLowerChar).filter (fun c => !isSepChar c)).filter isWordChar) : List Char) =
    ((l.map jsLowerChar).filter (fun c => !isSepChar c)).filter isWordChar := by
  have h1 : (((l.map jsLowerChar).filter (fun c => !isSepChar c)).filter isWordChar).map jsLowerChar =
      ((l.map jsLowerChar).filter (fun c => !isSepChar c)).filter isWordChar := by
    refine map_id_of_fixed _ ?_
    intro c hc
    have hc2 := (List.mem_filter.mp hc).1
    have hc3 := (List.mem_filter.mp hc2).1
    rcases List.mem_map.mp hc3 with ⟨d, -, rfl⟩
    exact jsLowerChar_idem d
  rw [h1]
  have h2 : (((l.map jsLowerChar).filter (fun c => !isSepChar c)).filter isWordChar).filter (fun c => !isSepChar c) =
      ((l.map jsLowerChar).filter (fun c => !isSepChar c)).filter isWordChar := by
    refine List.filter_eq_self.mpr ?_
    intro c hc
    exact (List.mem_filter.mp (List.mem_filter.mp hc).1).2
  rw [h2]
  refine List.filter_eq_self.mpr ?_
  intro c hc
  exact (List.mem_filter.mp hc).2

theorem normalizeText_idem (s : String) :
    normalizeText (normalizeText s) = normalizeText s := by
  unfold normalizeText
  exact congrArg String.mk (normalizeList_idem s.data)

theorem preprocessQuery_self (s : String) :
    preprocessQuery (preprocessQuery s) = jsTrim (preprocessQuery s) := by
  have hstep : ∀ L : List Char,
      (∀ c ∈ L, (isSepChar c = true → c = ' ') ∧ jsLowerChar c = c) →
      NoTwo isSepChar L →
      preprocessQuery ⟨L⟩ = jsTrim ⟨L⟩ := by
    intro L hmemL hntL
    obtain ⟨a, b, hab⟩ := trimList_parts L
    have hsubt : ∀ c ∈ trimList L, c ∈ L := by
      intro c hc
      rw [hab]
      simp only [List.mem_append]
      exact Or.inl (Or.inr hc)
    have hntT : NoTwo isSepChar (trimList L) := by
      have h0 := hntL
      rw [hab] at h0
      exact noTwo_append_right (noTwo_append_left h0)
    unfold preprocessQuery jsTrim
    refine congrArg String.mk ?_
    show collapseRuns isJsWhitespace (collapseRuns isSepChar ((trimList L).map jsLowerChar)) = trimList L
    rw [map_id_of_fixed (trimList L) (fun c hc => (hmemL c (hsubt c hc)).2)]
    unfold collapseRuns
    rw [(collapseAux_id isSepChar (trimList L)
      (fun c hc hp => (hmemL c (hsubt c hc)).1 hp) hntT).1]
    exact (collapseAux_id isJsWhitespace (trimList L)
      (fun c hc hw => (hmemL c (hsubt c hc)).1 (sep_of_ws hw))
      (noTwo_mono (fun c => sep_of_ws) hntT)).1
  have hpp : preprocessQuery s = ⟨collapseRuns isSepChar ((trimList s.data).map jsLowerChar)⟩ := by
    unfold preprocessQuery
    exact congrArg String.mk (collapseWs_after_sep _)
  rw [hpp]
  apply hstep
  · intro c hc
    constructor
    · intro hsep
      rcases collapseAux_mem_class isSepChar ((trimList s.data).map jsLowerChar) false c hc with h | h
      · exact h
      · rw [hsep] at h
        exact absurd h (by simp)
    · rcases collapseAux_mem_orig isSepChar ((trimList s.data).map jsLowerChar) false c hc with h | h
      · rw [h]; decide
      · rcases List.mem_map.mp h with ⟨d, -, rfl⟩
        exact jsLowerChar_idem d
  · exact collapseAux_noTwo isSepChar _ false

/-! ## Structural lemmas on the search pipeline -/

theorem searchRobotsClientSide_guard (fuse : Fuse) (robots : List SearchableRobot)
    (query : String) (limit : Nat) (h : jsTrim query = "") :
    searchRobotsClientSide fuse robots query limit = [] := by
  simp [searchRobotsClientSide, h]

theorem searchRobotsClientSide_exact_eq (fuse : Fuse) (robots : List SearchableRobot)
    (query : String) (limit : Nat) (hq : jsTrim query ≠ "")
    (hx : robots.filter (isExactMatch query) ≠ []) :
    searchRobotsClientSide fuse robots query limit =
      (robots.filter (isExactMatch query) ++
        (fuse robots (preprocessQuery query) limit).filter
          (fun r => !((robots.filter (isExactMatch query)).any (fun e => e.id == r.id)))).take limit := by
  have hlen : 0 < (robots.filter (isExactMatch query)).length := List.length_pos.mpr hx
  simp only [searchRobotsClientSide, if_neg hq, hlen, if_pos]

theorem searchRobotsClientSide_noexact_eq (fuse : Fuse) (robots : List SearchableRobot)
    (query : String) (limit : Nat) (hq : jsTrim query ≠ "")
    (hx : robots.filter (isExactMatch query) = []) :
    searchRobotsClientSide fuse robots query limit =
      fuse robots (preprocessQuery query) limit := by
  simp only [searchRobotsClientSide, if_neg hq, hx]
  simp

theorem searchRobotsClientSide_subset (fuse : Fuse) (robots : List SearchableRobot)
    (query : String) (limit : Nat)
    (hsub : ∀ r ∈ fuse robots (preprocessQuery query) limit, r ∈ robots) :
    ∀ r ∈ searchRobotsClientSide fuse robots query limit, r ∈ robots := by
  intro r hr
  by_cases hg : jsTrim query = ""
  · rw [searchRobotsClientSide_guard fuse robots query limit hg] at hr
    simp at hr
  · by_cases hx : robots.filter (isExactMatch query) = []
    · rw [searchRobotsClientSide_noexact_eq fuse robots query limit hg hx] at hr
      exact hsub r hr
    · rw [searchRobotsClientSide_exact_eq fuse robots query limit hg hx] at hr
      have hr2 := (List.take_sublist _ _).subset hr
      rcases List.mem_append.mp hr2 with h | h
      · exact List.mem_of_mem_filter h
      · exact hsub r (List.mem_of_mem_filter h)

theorem searchRobotsClientSide_length (fuse : Fuse) (robots : List SearchableRobot)
    (query : String) (limit : Nat)
    (hlen : (fuse robots (preprocessQuery query) limit).length ≤ limit) :
    (searchRobotsClientSide fuse robots query limit).length ≤ limit := by
  by_cases hg : jsTrim query = ""
  · rw [searchRobotsClientSide_guard fuse robots query limit hg]
    simp
  · by_cases hx : robots.filter (isExactMatch query) = []
    · rw [searchRobotsClientSide_noexact_eq fuse robots query limit hg hx]
      exact hlen
    · rw [searchRobotsClientSide_exact_eq fuse robots query limit hg hx]
      exact List.length_take_le limit _

theorem searchRobotsClientSide_nodup (fuse : Fuse) (robots : List SearchableRobot)
    (query : String) (limit : Nat)
    (hr : (robots.map SearchableRobot.id).Nodup)
    (hf : ((fuse robots (preprocessQuery query) limit).map SearchableRobot.id).Nodup) :
    ((searchRobotsClientSide fuse robots query limit).map SearchableRobot.id).Nodup := by
  by_cases hg : jsTrim query = ""
  · rw [searchRobotsClientSide_guard fuse robots query limit hg]
    simp
  · by_cases hx : robots.filter (isExactMatch query) = []
    · rw [searchRobotsClientSide_noexact_eq fuse robots query limit hg hx]
      exact hf
    · rw [searchRobotsClientSide_exact_eq fuse robots query limit hg hx]
      have hA : ((robots.filter (isExactMatch query)).map SearchableRobot.id).Nodup :=
        List.Nodup.sublist (List.Sublist.map SearchableRobot.id (List.filter_sublist robots)) hr
      have hB : (((fuse robots (preprocessQuery query) limit).filter
          (fun r => !((robots.filter (isExactMatch query)).any (fun e => e.id == r.id)))).map
            SearchableRobot.id).Nodup :=
        List.Nodup.sublist (List.Sublist.map SearchableRobot.id (List.filter_sublist _)) hf
      have hdisj : ((robots.filter (isExactMatch query)).map SearchableRobot.id).Disjoint
          (((fuse robots (preprocessQuery query) limit).filter
            (fun r => !((robots.filter (isExactMatch query)).any (fun e => e.id == r.id)))).map
              SearchableRobot.id) := by
        intro x hxA hxB
        rcases List.mem_map.mp hxA with ⟨e, heA, rfl⟩
        rcases List.mem_map.mp hxB with ⟨r, hrB, hid⟩
        have hcond := List.of_mem_filter hrB
        rw [Bool.not_eq_true'] at hcond
        have hall := List.any_eq_false.mp hcond e heA
        exact hall (beq_iff_eq.mpr hid.symm)
      have h1 : (((robots.filter (isExactMatch query)) ++
          (fuse robots (preprocessQuery query) limit).filter
            (fun r => !((robots.filter (isExactMatch query)).any (fun e => e.id == r.id)))).map
              SearchableRobot.id).Nodup := by
        rw [List.map_append]
        exact List.nodup_append.mpr ⟨hA, hB, hdisj⟩
      rw [List.map_take]
      exact List.Nodup.sublist (List.take_sublist _ _) h1

theorem sortSearchResults_perm (getTime : String → Int) (results : List SearchableRobot)
    (sortBy : String) : (sortSearchResults getTime results sortBy).Perm results := by
  unfold sortSearchResults
  split_ifs
  · exact jsSortBy_perm _ _
  · exact jsSortBy_perm _ _
  · exact jsSortBy_perm _ _
  · exact jsSortBy_perm _ _
  · exact List.Perm.refl _

theorem tags_contains_mem {l : List String} {t : String} (h : l.contains t = true) : t ∈ l := by
  rcases List.contains_iff_exists_mem_beq.mp h with ⟨a, ha, hbeq⟩
  rw [show t = a from beq_iff_eq.mp hbeq]
  exact ha

theorem searchRobotsWithTagFilter_eq_active (fuse : Fuse) (robots : List SearchableRobot)
    (query : String) (t : String) (limit : Nat) (h1 : t ≠ "") (h2 : t ≠ "all") :
    searchRobotsWithTagFilter fuse robots query (some t) limit =
      searchRobotsClientSide fuse (robots.filter (fun r => r.tags.contains t)) query limit := by
  simp [searchRobotsWithTagFilter, h1, h2]

/-! ## The concrete backend satisfies the library guarantees -/

theorem fuseModel_subset : FuseSubset fuseModel := by
  intro robots q l r hr
  unfold fuseModel at hr
  have hr2 := (List.take_sublist _ _).subset hr
  have hr3 := (jsSortBy_perm _ _).mem_iff.mp hr2
  exact List.mem_of_mem_filter hr3

theorem fuseModel_limit : FuseLimit fuseModel := by
  intro robots q l
  unfold fuseModel
  exact List.length_take_le l _

theorem fuseModel_nodupIds : FuseNodupIds fuseModel := by
  intro robots q l h
  unfold fuseModel
  rw [List.map_take]
  refine List.Nodup.sublist (List.take_sublist _ _) ?_
  have h1 : ((robots.filter (fun r => 0 < fuseScore q r)).map SearchableRobot.id).Nodup :=
    List.Nodup.sublist (List.Sublist.map SearchableRobot.id (List.filter_sublist robots)) h
  exact h1.perm ((jsSortBy_perm _ _).map SearchableRobot.id).symm

/-! ## Splitting lemmas for the comprehensive pipeline -/

theorem comprehensiveSearch_empty_query (fuse : Fuse) (getTime : String → Int)
    (robots : List SearchableRobot) (query : String) (tag : Option String)
    (sortBy : String) (limit : Nat) (h : jsTrim query = "") :
    comprehensiveSearch fuse getTime robots query tag sortBy limit =
      (sortSearchResults getTime
        (match tag with
          | some t => if t ≠ "" ∧ t ≠ "all" then robots.filter (fun r => r.tags.contains t) else robots
          | none => robots) sortBy).take limit := by
  simp [comprehensiveSearch, h]

theorem comprehensiveSearch_with_query (fuse : Fuse) (getTime : String → Int)
    (robots : List SearchableRobot) (query : String) (tag : Option String)
    (sortBy : String) (limit : Nat) (h : jsTrim query ≠ "") :
    comprehensiveSearch fuse getTime robots query tag sortBy limit =
      sortSearchResults getTime (searchRobotsWithTagFilter fuse robots query tag limit) sortBy := by
  simp [comprehensiveSearch, h]

theorem searchRobotsWithTagFilter_subset (fuse : Fuse) (hsub : FuseSubset fuse)
    (robots : List SearchableRobot) (query : String) (tag : Option String) (limit : Nat) :
    ∀ r ∈ searchRobotsWithTagFilter fuse robots query tag limit,
      r ∈ (match tag with
        | some t => if t ≠ "" ∧ t ≠ "all" then
            robots.filter (fun x : SearchableRobot => x.tags.contains t) else robots
        | none => robots) := by
  intro r hr
  unfold searchRobotsWithTagFilter at hr
  exact searchRobotsClientSide_subset fuse _ query limit (fun x hx => hsub _ _ _ x hx) r hr

theorem trimList_map_lower (l : List Char) :
    trimList (l.map jsLowerChar) = (trimList l).map jsLowerChar := by
  unfold trimList dropTrailing
  have hws : (isJsWhitespace ∘ jsLowerChar) = isJsWhitespace := funext (fun c => ws_jsLowerChar c)
  rw [List.dropWhile_map, hws, ← List.map_reverse, List.dropWhile_map, hws, ← List.map_reverse]

theorem searchRobotsClientSide_congr (fuse : Fuse) (robots : List SearchableRobot)
    (limit : Nat) (q₁ q₂ : String) (h : jsLower q₁ = jsLower q₂) :
    searchRobotsClientSide fuse robots q₁ limit = searchRobotsClientSide fuse robots q₂ limit := by
  have hdata : q₁.data.map jsLowerChar = q₂.data.map jsLowerChar := by
    have h2 := congrArg String.data h
    simpa [jsLower] using h2
  have htrim : (trimList q₁.data).map jsLowerChar = (trimList q₂.data).map jsLowerChar := by
    rw [← trimList_map_lower, ← trimList_map_lower, hdata]
  have hnil : trimList q₁.data = [] ↔ trimList q₂.data = [] := by
    constructor
    · intro hh
      have h3 : (trimList q₂.data).map jsLowerChar = [] := by
        rw [← htrim, hh]
        rfl
      exact List.map_eq_nil_iff.mp h3
    · intro hh
      have h3 : (trimList q₁.data).map jsLowerChar = [] := by
        rw [htrim, hh]
        rfl
      exact List.map_eq_nil_iff.mp h3
  have hguard : jsTrim q₁ = "" ↔ jsTrim q₂ = "" := by
    rw [String.ext_iff, String.ext_iff]
    exact hnil
  have hpp : preprocessQuery q₁ = preprocessQuery q₂ := by
    unfold preprocessQuery
    exact congrArg String.mk (by rw [htrim])
  have hex : isExactMatch q₁ = isExactMatch q₂ :=
    funext fun r => by unfold isExactMatch; rw [h]
  unfold searchRobotsClientSide
  rw [hpp, hex]
  by_cases hg : jsTrim q₁ = ""
  · rw [if_pos hg, if_pos (hguard.mp hg)]
  · rw [if_neg hg, if_neg (fun hh => hg (hguard.mpr hh))]

/-- C1: for a non-empty (non-whitespace) query, `searchRobotsClientSide`
scans the full collection for entries whose `name` or `slug` equals the raw
query case-insensitively, puts them first in original collection order,
drops them (by `id`) from the fuzzy list before concatenating, and truncates
to `limit`; on `[SO-100, SO-101, Pupper v3]` with query `"SO-100"` the first
result is named `"SO-100"` — for every fuzzy backend. -/
theorem c1_exact_match_promotion :
    (∀ (fuse : Fuse) (robots : List SearchableRobot) (query : String) (limit : Nat),
      jsTrim query ≠ "" → robots.filter (isExactMatch query) ≠ [] →
      searchRobotsClientSide fuse robots query limit =
        (robots.filter (isExactMatch query) ++
          (fuse robots (preprocessQuery query) limit).filter
            (fun r => !((robots.filter (isExactMatch query)).any (fun e => e.id == r.id)))).take limit) ∧
    (∀ fuse : Fuse,
      (searchRobotsClientSide fuse [so100Entry, so101Entry, pupperEntry] "SO-100" 50).head?.map
        SearchableRobot.name = some "SO-100") := by
  constructor
  · intro fuse robots query limit hq hx
    exact searchRobotsClientSide_exact_eq fuse robots query limit hq hx
  · intro fuse
    rw [searchRobotsClientSide_exact_eq fuse [so100Entry, so101Entry, pupperEntry] "SO-100" 50
      (by decide) (by decide)]
    rw [show [so100Entry, so101Entry, pupperEntry].filter (isExactMatch "SO-100") = [so100Entry]
      from by decide]
    rw [show ([so100Entry] ++ (fuse [so100Entry, so101Entry, pupperEntry]
        (preprocessQuery "SO-100") 50).filter
          (fun r => !([so100Entry].any (fun e => e.id == r.id)))) =
      so100Entry :: (fuse [so100Entry, so101Entry, pupperEntry]
        (preprocessQuery "SO-100") 50).filter
          (fun r => !([so100Entry].any (fun e => e.id == r.id))) from rfl]
    rw [List.take_succ_cons, List.head?_cons]
    rfl

/-- Witness for C1 at the concrete backend `fuseModel`. -/
theorem c1_exact_match_promotion_witness :
    jsTrim "SO-100" ≠ "" ∧
    [so100Entry, so101Entry, pupperEntry].filter (isExactMatch "SO-100") ≠ [] ∧
    searchRobotsClientSide fuseModel [so100Entry, so101Entry, pupperEntry] "SO-100" 50 =
      ([so100Entry, so101Entry, pupperEntry].filter (isExactMatch "SO-100") ++
        (fuseModel [so100Entry, so101Entry, pupperEntry] (preprocessQuery "SO-100") 50).filter
          (fun r => !(([so100Entry, so101Entry, pupperEntry].filter
            (isExactMatch "SO-100")).any (fun e => e.id == r.id)))).take 50 :=
  ⟨by decide, by decide,
    c1_exact_match_promotion.1 fuseModel [so100Entry, so101Entry, pupperEntry] "SO-100" 50
      (by decide) (by decide)⟩

/-- C2 counterexample: on a collection containing an entry named `"SO-100"`
and one named `"so 100"`, the queries `"so-100"` and `"so 100"` (two of the
four the claim equates) promote different exact matches, so the returned
lists differ in order. -/
theorem c2_separator_invariance_counterexample :
    searchRobotsClientSide fuseModel [hyphenNamedEntry, spaceNamedEntry] "so-100" 50 ≠
      searchRobotsClientSide fuseModel [hyphenNamedEntry, spaceNamedEntry] "so 100" 50 := by
  decide

/-- C2 amended: queries that agree after `toLowerCase` (so in particular
queries differing only in case, such as `"SO-100"` and `"so-100"`) give
identical result lists, for every fuzzy backend; separator variants are not
equivalent in general because exact-match promotion compares the raw
lower-cased query. -/
theorem c2_separator_invariance_amended :
    ∀ (fuse : Fuse) (robots : List SearchableRobot) (limit : Nat) (q₁ q₂ : String),
      jsLower q₁ = jsLower q₂ →
      searchRobotsClientSide fuse robots q₁ limit = searchRobotsClientSide fuse robots q₂ limit :=
  fun fuse robots limit q₁ q₂ h => searchRobotsClientSide_congr fuse robots limit q₁ q₂ h

/-- Witness for the amended C2: `"SO-100"` and `"so-100"` are equivalent
queries on the concrete backend. -/
theorem c2_separator_invariance_amended_witness :
    searchRobotsClientSide fuseModel [hyphenNamedEntry, spaceNamedEntry] "SO-100" 50 =
      searchRobotsClientSide fuseModel [hyphenNamedEntry, spaceNamedEntry] "so-100" 50 :=
  c2_separator_invariance_amended fuseModel [hyphenNamedEntry, spaceNamedEntry] 50
    "SO-100" "so-100" (by decide)

/-- C4: an empty or whitespace-only query returns the empty list, and the
empty collection returns the empty list for every query, with no error —
for every backend whose results come from the indexed collection. -/
theorem c4_empty_query_empty_collection :
    ∀ fuse : Fuse, FuseSubset fuse →
      (∀ (robots : List SearchableRobot) (limit : Nat) (query : String),
        (query = "" ∨ query.data.all isJsWhitespace = true) →
        searchRobotsClientSide fuse robots query limit = []) ∧
      (∀ (query : String) (limit : Nat), searchRobotsClientSide fuse [] query limit = []) := by
  intro fuse hsub
  constructor
  · intro robots limit query hq
    have hg : jsTrim query = "" := by
      rcases hq with rfl | hall
      · rfl
      · have h1 : query.data.dropWhile isJsWhitespace = [] :=
          List.dropWhile_eq_nil_iff.mpr (List.all_eq_true.mp hall)
        have h2 : trimList query.data = [] := by
          unfold trimList dropTrailing
          rw [h1]
          rfl
        exact congrArg String.mk h2
    exact searchRobotsClientSide_guard fuse robots query limit hg
  · intro query limit
    by_cases hg : jsTrim query = ""
    · exact searchRobotsClientSide_guard fuse [] query limit hg
    · rw [searchRobotsClientSide_noexact_eq fuse [] query limit hg (by rfl)]
      refine List.eq_nil_iff_forall_not_mem.mpr ?_
      intro r hr
      have := hsub [] (preprocessQuery query) limit r hr
      simp at this

/-- Witness for C4 at the concrete backend. -/
theorem c4_empty_query_empty_collection_witness :
    searchRobotsClientSide fuseModel [so100Entry] "  " 50 = [] ∧
    searchRobotsClientSide fuseModel [] "robot" 50 = [] :=
  ⟨(c4_empty_query_empty_collection fuseModel fuseModel_subset).1 [so100Entry] 50 "  "
      (Or.inr (by decide)),
    (c4_empty_query_empty_collection fuseModel fuseModel_subset).2 "robot" 50⟩

/-- C5: the result list of `searchRobotsClientSide` is capped at `limit`
(given the backend honors its `limit` option); when the exact matches alone
reach the cap, every returned slot is an exact match; and
`comprehensiveSearch` respects the same cap. -/
theorem c5_result_cap :
    ∀ fuse : Fuse, FuseLimit fuse →
      (∀ (robots : List SearchableRobot) (query : String) (limit : Nat),
        (searchRobotsClientSide fuse robots query limit).length ≤ limit) ∧
      (∀ (robots : List SearchableRobot) (query : String) (limit : Nat),
        0 < limit → jsTrim query ≠ "" →
        limit ≤ (robots.filter (isExactMatch query)).length →
        searchRobotsClientSide fuse robots query limit =
          (robots.filter (isExactMatch query)).take limit) ∧
      (∀ (getTime : String → Int) (robots : List SearchableRobot) (query : String)
          (tag : Option String) (sortBy : String) (limit : Nat),
        (comprehensiveSearch fuse getTime robots query tag sortBy limit).length ≤ limit) := by
  intro fuse hlim
  refine ⟨?_, ?_, ?_⟩
  · intro robots query limit
    exact searchRobotsClientSide_length fuse robots query limit (hlim robots _ limit)
  · intro robots query limit hpos hq hge
    have hx : robots.filter (isExactMatch query) ≠ [] := by
      apply List.length_pos.mp
      omega
    rw [searchRobotsClientSide_exact_eq fuse robots query limit hq hx]
    exact List.take_append_of_le_length hge
  · intro getTime robots query tag sortBy limit
    by_cases hg : jsTrim query = ""
    · rw [comprehensiveSearch_empty_query fuse getTime robots query tag sortBy limit hg]
      exact List.length_take_le limit _
    · rw [comprehensiveSearch_with_query fuse getTime robots query tag sortBy limit hg]
      rw [(sortSearchResults_perm getTime _ sortBy).length_eq]
      unfold searchRobotsWithTagFilter
      exact searchRobotsClientSide_length fuse _ query limit (hlim _ _ limit)

/-- Witness for C5 at the concrete backend. -/
theorem c5_result_cap_witness :
    (searchRobotsClientSide fuseModel [so100Entry, so101Entry] "so" 1).length ≤ 1 ∧
    (0 < 1 ∧ jsTrim "SO-100" ≠ "" ∧
      1 ≤ ([so100Entry, so101Entry].filter (isExactMatch "SO-100")).length) ∧
    searchRobotsClientSide fuseModel [so100Entry, so101Entry] "SO-100" 1 =
      ([so100Entry, so101Entry].filter (isExactMatch "SO-100")).take 1 :=
  ⟨(c5_result_cap fuseModel fuseModel_limit).1 [so100Entry, so101Entry] "so" 1,
    ⟨by decide, by decide, by decide⟩,
    (c5_result_cap fuseModel fuseModel_limit).2.1 [so100Entry, so101Entry] "SO-100" 1
      (by decide) (by decide) (by decide)⟩

theorem tagPool_ids_nodup (robots : List SearchableRobot) (tag : Option String)
    (hr : (robots.map SearchableRobot.id).Nodup) :
    ((match tag with
      | some t => if t ≠ "" ∧ t ≠ "all" then
          robots.filter (fun x : SearchableRobot => x.tags.contains t) else robots
      | none => robots).map SearchableRobot.id).Nodup := by
  rcases tag with _ | t
  · exact hr
  · show ((if t ≠ "" ∧ t ≠ "all" then
      robots.filter (fun x : SearchableRobot => x.tags.contains t) else robots).map
        SearchableRobot.id).Nodup
    split_ifs
    · exact List.Nodup.sublist (List.Sublist.map _ (List.filter_sublist robots)) hr
    · exact hr

/-- C6: when ids are unique in the collection, no id appears twice in the
output of `searchRobotsClientSide` or `comprehensiveSearch` (given the
backend returns each indexed item at most once). -/
theorem c6_no_duplicate_ids :
    ∀ fuse : Fuse, FuseNodupIds fuse →
      (∀ (robots : List SearchableRobot) (query : String) (limit : Nat),
        (robots.map SearchableRobot.id).Nodup →
        ((searchRobotsClientSide fuse robots query limit).map SearchableRobot.id).Nodup) ∧
      (∀ (getTime : String → Int) (robots : List SearchableRobot) (query : String)
          (tag : Option String) (sortBy : String) (limit : Nat),
        (robots.map SearchableRobot.id).Nodup →
        ((comprehensiveSearch fuse getTime robots query tag sortBy limit).map
          SearchableRobot.id).Nodup) := by
  intro fuse hnd
  constructor
  · intro robots query limit hr
    exact searchRobotsClientSide_nodup fuse robots query limit hr (hnd robots _ limit hr)
  · intro getTime robots query tag sortBy limit hr
    have hfil := tagPool_ids_nodup robots tag hr
    by_cases hg : jsTrim query = ""
    · rw [comprehensiveSearch_empty_query fuse getTime robots query tag sortBy limit hg]
      have hsorted := hfil.perm ((sortSearchResults_perm getTime _ sortBy).map
        SearchableRobot.id).symm
      rw [List.map_take]
      exact List.Nodup.sublist (List.take_sublist _ _) hsorted
    · rw [comprehensiveSearch_with_query fuse getTime robots query tag sortBy limit hg]
      have h1 : ((searchRobotsWithTagFilter fuse robots query tag limit).map
          SearchableRobot.id).Nodup := by
        unfold searchRobotsWithTagFilter
        exact searchRobotsClientSide_nodup fuse _ query limit hfil (hnd _ _ limit hfil)
      exact h1.perm ((sortSearchResults_perm getTime _ sortBy).map SearchableRobot.id).symm

/-- Witness for C6 at the concrete backend. -/
theorem c6_no_duplicate_ids_witness :
    ((searchRobotsClientSide fuseModel [so100Entry, so101Entry, pupperEntry] "SO-100" 50).map
      SearchableRobot.id).Nodup :=
  (c6_no_duplicate_ids fuseModel fuseModel_nodupIds).1 [so100Entry, so101Entry, pupperEntry]
    "SO-100" 50 (by decide)

theorem tagPool_mem_tags {robots : List SearchableRobot} {t : String} {r : SearchableRobot}
    (h1 : t ≠ "") (h2 : t ≠ "all")
    (hmem : r ∈ (match (some t : Option String) with
      | some tt => if tt ≠ "" ∧ tt ≠ "all" then
          robots.filter (fun x : SearchableRobot => x.tags.contains tt) else robots
      | none => robots)) : t ∈ r.tags := by
  have hmem' : r ∈ (if t ≠ "" ∧ t ≠ "all" then
      robots.filter (fun x : SearchableRobot => x.tags.contains t) else robots) := hmem
  rw [if_pos ⟨h1, h2⟩] at hmem'
  have hc : r.tags.contains t = true := by simpa using List.of_mem_filter hmem'
  exact tags_contains_mem hc

/-- C7: with an active tag filter every result carries the tag
(case-sensitive membership); the filter restricts the pool before the fuzzy
search and the exact-match promotion; and with an empty query the pipeline
is exactly tag-filter, sort, and cap. -/
theorem c7_tag_filter_correct :
    ∀ fuse : Fuse, FuseSubset fuse →
      (∀ (robots : List SearchableRobot) (query : String) (t : String) (limit : Nat),
        t ≠ "" → t ≠ "all" →
        (searchRobotsWithTagFilter fuse robots query (some t) limit =
          searchRobotsClientSide fuse
            (robots.filter (fun x : SearchableRobot => x.tags.contains t)) query limit) ∧
        ∀ r ∈ searchRobotsWithTagFilter fuse robots query (some t) limit, t ∈ r.tags) ∧
      (∀ (getTime : String → Int) (robots : List SearchableRobot) (query : String)
          (t : String) (sortBy : String) (limit : Nat), t ≠ "" → t ≠ "all" →
        ∀ r ∈ comprehensiveSearch fuse getTime robots query (some t) sortBy limit,
          t ∈ r.tags) ∧
      (∀ (getTime : String → Int) (robots : List SearchableRobot) (query : String)
          (tag : Option String) (sortBy : String) (limit : Nat), jsTrim query = "" →
        comprehensiveSearch fuse getTime robots query tag sortBy limit =
          (sortSearchResults getTime
            (match tag with
              | some t => if t ≠ "" ∧ t ≠ "all" then
                  robots.filter (fun x : SearchableRobot => x.tags.contains t) else robots
              | none => robots) sortBy).take limit) := by
  intro fuse hsub
  refine ⟨?_, ?_, ?_⟩
  · intro robots query t limit h1 h2
    refine ⟨searchRobotsWithTagFilter_eq_active fuse robots query t limit h1 h2, ?_⟩
    intro r hr
    exact tagPool_mem_tags h1 h2
      (searchRobotsWithTagFilter_subset fuse hsub robots query (some t) limit r hr)
  · intro getTime robots query t sortBy limit h1 h2 r hr
    by_cases hg : jsTrim query = ""
    · rw [comprehensiveSearch_empty_query fuse getTime robots query (some t) sortBy limit hg] at hr
      have hr2 := (List.take_sublist _ _).subset hr
      have hr3 := (sortSearchResults_perm getTime _ sortBy).mem_iff.mp hr2
      exact tagPool_mem_tags h1 h2 hr3
    · rw [comprehensiveSearch_with_query fuse getTime robots query (some t) sortBy limit hg] at hr
      have hr2 := (sortSearchResults_perm getTime _ sortBy).mem_iff.mp hr
      exact tagPool_mem_tags h1 h2
        (searchRobotsWithTagFilter_subset fuse hsub robots query (some t) limit r hr2)
  · intro getTime robots query tag sortBy limit hg
    exact comprehensiveSearch_empty_query fuse getTime robots query tag sortBy limit hg

/-- Witness for C7 at the concrete backend. -/
theorem c7_tag_filter_correct_witness :
    searchRobotsWithTagFilter fuseModel [so100Entry, pupperEntry] "pupper"
      (some "education") 50 =
      searchRobotsClientSide fuseModel
        ([so100Entry, pupperEntry].filter
          (fun x : SearchableRobot => x.tags.contains "education")) "pupper" 50 :=
  ((c7_tag_filter_correct fuseModel fuseModel_subset).1 [so100Entry, pupperEntry] "pupper"
    "education" 50 (by decide) (by decide)).1

theorem localeCompare_total (a b : String) : localeCompare a b ≤ 0 ∨ localeCompare b a ≤ 0 := by
  rw [localeCompare_le_iff, localeCompare_le_iff]
  unfold lexLe
  cases h : lexLt b.data a.data
  · left
    simp
  · right
    rw [lexLt_asymm _ _ h]
    rfl

theorem localeCompare_trans (a b c : String) :
    localeCompare a b ≤ 0 → localeCompare b c ≤ 0 → localeCompare a c ≤ 0 := by
  rw [localeCompare_le_iff, localeCompare_le_iff, localeCompare_le_iff]
  unfold lexLe
  intro h1 h2
  rw [Bool.not_eq_true'] at h1 h2 ⊢
  exact lexLt_false_trans a.data b.data c.data h1 h2

/-- C8: the four explicit sort modes of `sortSearchResults` produce
sequences ordered as specified (ascending lexicographic by name, descending
then ascending by the parsed `created_at`, descending by the rating field
defaulting to `0` when absent), and any other `sortBy` value — including
`"relevance"` and anything unrecognized — returns the input unchanged. -/
theorem c8_sort_modes :
    ∀ (getTime : String → Int) (results : List SearchableRobot),
      (sortSearchResults getTime results "name").Pairwise
        (fun a b => lexLe a.name.data b.name.data = true) ∧
      (sortSearchResults getTime results "newest").Pairwise
        (fun a b => getTime b.created_at ≤ getTime a.created_at) ∧
      (sortSearchResults getTime results "oldest").Pairwise
        (fun a b => getTime a.created_at ≤ getTime b.created_at) ∧
      (sortSearchResults getTime results "rating").Pairwise
        (fun a b => b.average_rating.getD 0 ≤ a.average_rating.getD 0) ∧
      (∀ sortBy : String, sortBy ≠ "newest" → sortBy ≠ "oldest" → sortBy ≠ "name" →
        sortBy ≠ "rating" → sortSearchResults getTime results sortBy = results) := by
  intro getTime results
  refine ⟨?_, ?_, ?_, ?_, ?_⟩
  · have e : sortSearchResults getTime results "name" =
        jsSortBy (fun a b => decide (localeCompare a.name b.name ≤ 0)) results := by
      unfold sortSearchResults
      rw [if_neg (by decide), if_neg (by decide), if_pos rfl]
    rw [e]
    have hp := jsSortBy_pairwise
      (fun a b : SearchableRobot => decide (localeCompare a.name b.name ≤ 0))
      (fun a b => by
        rcases localeCompare_total a.name b.name with h | h
        · exact Or.inl (decide_eq_true h)
        · exact Or.inr (decide_eq_true h))
      (fun a b c h1 h2 => decide_eq_true
        (localeCompare_trans a.name b.name c.name (of_decide_eq_true h1) (of_decide_eq_true h2)))
      results
    exact hp.imp (fun h => (localeCompare_le_iff _ _).mp (of_decide_eq_true h))
  · have e : sortSearchResults getTime results "newest" =
        jsSortBy (fun a b => decide (getTime b.created_at ≤ getTime a.created_at)) results := by
      unfold sortSearchResults
      rw [if_pos rfl]
    rw [e]
    have hp := jsSortBy_pairwise
      (fun a b : SearchableRobot => decide (getTime b.created_at ≤ getTime a.created_at))
      (fun a b => by
        rcases le_total (getTime b.created_at) (getTime a.created_at) with h | h
        · exact Or.inl (decide_eq_true h)
        · exact Or.inr (decide_eq_true h))
      (fun a b c h1 h2 => decide_eq_true
        (le_trans (of_decide_eq_true h2) (of_decide_eq_true h1)))
      results
    exact hp.imp (fun h => of_decide_eq_true h)
  · have e : sortSearchResults getTime results "oldest" =
        jsSortBy (fun a b => decide (getTime a.created_at ≤ getTime b.created_at)) results := by
      unfold sortSearchResults
      rw [if_neg (by decide), if_pos rfl]
    rw [e]
    have hp := jsSortBy_pairwise
      (fun a b : SearchableRobot => decide (getTime a.created_at ≤ getTime b.created_at))
      (fun a b => by
        rcases le_total (getTime a.created_at) (getTime b.created_at) with h | h
        · exact Or.inl (decide_eq_true h)
        · exact Or.inr (decide_eq_true h))
      (fun a b c h1 h2 => decide_eq_true
        (le_trans (of_decide_eq_true h1) (of_decide_eq_true h2)))
      results
    exact hp.imp (fun h => of_decide_eq_true h)
  · have e : sortSearchResults getTime results "rating" =
        jsSortBy (fun a b => decide (b.average_rating.getD 0 ≤ a.average_rating.getD 0))
          results := by
      unfold sortSearchResults
      rw [if_neg (by decide), if_neg (by decide), if_neg (by decide), if_pos rfl]
    rw [e]
    have hp := jsSortBy_pairwise
      (fun a b : SearchableRobot => decide (b.average_rating.getD 0 ≤ a.average_rating.getD 0))
      (fun a b => by
        rcases le_total (b.average_rating.getD 0) (a.average_rating.getD 0) with h | h
        · exact Or.inl (decide_eq_true h)
        · exact Or.inr (decide_eq_true h))
      (fun a b c h1 h2 => decide_eq_true
        (le_trans (of_decide_eq_true h2) (of_decide_eq_true h1)))
      results
    exact hp.imp (fun h => of_decide_eq_true h)
  · intro sortBy h1 h2 h3 h4
    unfold sortSearchResults
    rw [if_neg h1, if_neg h2, if_neg h3, if_neg h4]

/-- Witness for C8: the `"relevance"` fall-through leaves a concrete list
unchanged. -/
theorem c8_sort_modes_witness :
    sortSearchResults sampleGetTime [so101Entry, so100Entry] "relevance" =
      [so101Entry, so100Entry] :=
  (c8_sort_modes sampleGetTime [so101Entry, so100Entry]).2.2.2.2 "relevance"
    (by decide) (by decide) (by decide) (by decide)

/-- C9 counterexample: the loose normalization `preprocessQuery` is not
idempotent — on `"a-"` it yields `"a "`, and a second application trims the
trailing space to `"a"`. -/
theorem c9_normalization_idem_counterexample :
    preprocessQuery (preprocessQuery "a-") ≠ preprocessQuery "a-" := by
  decide

/-- C9 amended: the strict normalization `normalizeText` is idempotent for
every string; the loose `preprocessQuery` satisfies
`pp (pp x) = (pp x).trim`, so it is idempotent exactly on the inputs whose
preprocessed form has no leading or trailing space (a trailing or leading
separator breaks idempotence, as the counterexample shows). -/
theorem c9_normalization_idem_amended :
    ∀ s : String,
      normalizeText (normalizeText s) = normalizeText s ∧
      preprocessQuery (preprocessQuery s) = jsTrim (preprocessQuery s) :=
  fun s => ⟨normalizeText_idem s, preprocessQuery_self s⟩

/-! ## Totality analysis on the optional-field model -/

theorem isOk_of_eq_ok {e : Except ε α} {v : α} (h : e = .ok v) : e.isOk = true := by
  rw [h]
  rfl

theorem filterE_ok {p : α → Except ε Bool} :
    ∀ l : List α, (∀ x ∈ l, ∃ b, p x = .ok b) →
      ∃ res, filterE p l = .ok res ∧ ∀ x ∈ res, x ∈ l := by
  intro l
  induction l with
  | nil => exact fun _ => ⟨[], rfl, by simp⟩
  | cons x xs ih =>
    intro h
    obtain ⟨b, hb⟩ := h x (List.mem_cons_self x xs)
    obtain ⟨res, hres, hmem⟩ := ih (fun y hy => h y (List.mem_cons_of_mem x hy))
    refine ⟨if b then x :: res else res, ?_, ?_⟩
    · unfold filterE
      rw [hb, hres]
    · intro y hy
      cases b with
      | true =>
        rw [if_pos rfl] at hy
        rcases List.mem_cons.mp hy with rfl | hy
        · exact List.mem_cons_self y xs
        · exact List.mem_cons_of_mem x (hmem y hy)
      | false =>
        rw [if_neg (by simp)] at hy
        exact List.mem_cons_of_mem x (hmem y hy)

theorem mapE_ok {f : α → Except ε β} :
    ∀ l : List α, (∀ x ∈ l, ∃ y, f x = .ok y) → ∃ res, mapE f l = .ok res := by
  intro l
  induction l with
  | nil => exact fun _ => ⟨[], rfl⟩
  | cons x xs ih =>
    intro h
    obtain ⟨y, hy⟩ := h x (List.mem_cons_self x xs)
    obtain ⟨res, hres⟩ := ih (fun z hz => h z (List.mem_cons_of_mem x hz))
    refine ⟨y :: res, ?_⟩
    unfold mapE
    rw [hy, hres]

theorem exactCheckOpt_ok {query : String} {r : SearchableRobotOpt}
    (hn : r.name.isSome = true) (hs : r.slug.isSome = true) :
    ∃ b, exactCheckOpt query r = .ok b := by
  obtain ⟨n, hn'⟩ := Option.isSome_iff_exists.mp hn
  obtain ⟨s, hs'⟩ := Option.isSome_iff_exists.mp hs
  unfold exactCheckOpt
  rw [hn']
  by_cases hq : (jsLower n == jsLower query) = true
  · refine ⟨true, ?_⟩
    show (if (jsLower n == jsLower query) = true then (Except.ok true : Except JsError Bool)
      else match jsField r.slug with
        | .error e => .error e
        | .ok s => .ok (jsLower s == jsLower query)) = Except.ok true
    rw [if_pos hq]
  · refine ⟨jsLower s == jsLower query, ?_⟩
    show (if (jsLower n == jsLower query) = true then (Except.ok true : Except JsError Bool)
      else match jsField r.slug with
        | .error e => .error e
        | .ok s => .ok (jsLower s == jsLower query)) =
      Except.ok (jsLower s == jsLower query)
    rw [if_neg hq, hs']
    rfl

theorem searchRobotsClientSideOpt_ok (fuse : FuseOpt) (robots : List SearchableRobotOpt)
    (query : String) (limit : Nat)
    (hsub : ∀ r ∈ fuse robots (preprocessQuery query) limit, r ∈ robots)
    (hn : ∀ r ∈ robots, r.name.isSome = true) (hs : ∀ r ∈ robots, r.slug.isSome = true) :
    ∃ res, searchRobotsClientSideOpt fuse robots query limit = .ok res ∧
      ∀ x ∈ res, x ∈ robots := by
  by_cases hg : jsTrim query = ""
  · exact ⟨[], by simp [searchRobotsClientSideOpt, hg], by simp⟩
  · obtain ⟨ex, hex, hexmem⟩ :=
      filterE_ok robots (fun x hx => exactCheckOpt_ok (hn x hx) (hs x hx))
    refine ⟨if 0 < ex.length then
        (ex ++ (fuse robots (preprocessQuery query) limit).filter
          (fun r => !(ex.any (fun e => e.id == r.id)))).take limit
      else fuse robots (preprocessQuery query) limit, ?_, ?_⟩
    · simp only [searchRobotsClientSideOpt, if_neg hg]
      rw [hex]
      show (if 0 < ex.length then
          Except.ok ((ex ++ (fuse robots (preprocessQuery query) limit).filter
            (fun r => !(ex.any (fun e => e.id == r.id)))).take limit)
        else (Except.ok (fuse robots (preprocessQuery query) limit) :
          Except JsError (List SearchableRobotOpt))) = _
      by_cases hl : 0 < ex.length
      · rw [if_pos hl, if_pos hl]
      · rw [if_neg hl, if_neg hl]
    · intro x hx
      by_cases hl : 0 < ex.length
      · rw [if_pos hl] at hx
        have hx2 := (List.take_sublist _ _).subset hx
        rcases List.mem_append.mp hx2 with h | h
        · exact hexmem x h
        · exact hsub x (List.mem_of_mem_filter h)
      · rw [if_neg hl] at hx
        exact hsub x hx

theorem tagPoolE_ok (robots : List SearchableRobotOpt) (tag : Option String)
    (httags : (∃ t, tag = some t ∧ t ≠ "" ∧ t ≠ "all") → ∀ r ∈ robots, r.tags.isSome = true) :
    ∃ fl, tagPoolE robots tag = .ok fl ∧ ∀ x ∈ fl, x ∈ robots := by
  rcases tag with _ | t
  · exact ⟨robots, rfl, fun x hx => hx⟩
  · by_cases hc : t ≠ "" ∧ t ≠ "all"
    · have htags := httags ⟨t, rfl, hc⟩
      obtain ⟨fl, hfl, hflmem⟩ := filterE_ok (p := tagCheckOpt t) robots (fun r hr => by
        obtain ⟨ts, hts⟩ := Option.isSome_iff_exists.mp (htags r hr)
        refine ⟨ts.contains t, ?_⟩
        unfold tagCheckOpt
        rw [hts]
        rfl)
      refine ⟨fl, ?_, hflmem⟩
      show (if t ≠ "" ∧ t ≠ "all" then filterE (tagCheckOpt t) robots else
        (Except.ok robots : Except JsError (List SearchableRobotOpt))) = _
      rw [if_pos hc]
      exact hfl
    · refine ⟨robots, ?_, fun x hx => hx⟩
      show (if t ≠ "" ∧ t ≠ "all" then filterE (tagCheckOpt t) robots else
        (Except.ok robots : Except JsError (List SearchableRobotOpt))) = _
      rw [if_neg hc]

theorem searchRobotsWithTagFilterOpt_ok (fuse : FuseOpt) (robots : List SearchableRobotOpt)
    (query : String) (tag : Option String) (limit : Nat)
    (hsub : FuseOptSubset fuse)
    (hn : ∀ r ∈ robots, r.name.isSome = true) (hs : ∀ r ∈ robots, r.slug.isSome = true)
    (httags : (∃ t, tag = some t ∧ t ≠ "" ∧ t ≠ "all") → ∀ r ∈ robots, r.tags.isSome = true) :
    ∃ res, searchRobotsWithTagFilterOpt fuse robots query tag limit = .ok res ∧
      ∀ x ∈ res, x ∈ robots := by
  obtain ⟨fl, hfl, hflmem⟩ := tagPoolE_ok robots tag httags
  obtain ⟨res, hres, hmem⟩ := searchRobotsClientSideOpt_ok fuse fl query limit
    (fun r hr => hsub fl _ limit r hr)
    (fun r hr => hn r (hflmem r hr)) (fun r hr => hs r (hflmem r hr))
  refine ⟨res, ?_, fun x hx => hflmem x (hmem x hx)⟩
  unfold searchRobotsWithTagFilterOpt
  rw [hfl]
  exact hres

theorem sortSearchResultsOpt_ok (getTime : String → Int) (results : List SearchableRobotOpt)
    (sortBy : String) (hn : ∀ r ∈ results, r.name.isSome = true) :
    ∃ res, sortSearchResultsOpt getTime results sortBy = .ok res := by
  unfold sortSearchResultsOpt
  split_ifs
  · exact ⟨_, rfl⟩
  · exact ⟨_, rfl⟩
  · obtain ⟨keyed, hk⟩ := mapE_ok (f := nameKeyOpt) results (fun r hr => by
      obtain ⟨n, hn'⟩ := Option.isSome_iff_exists.mp (hn r hr)
      refine ⟨(r, n), ?_⟩
      unfold nameKeyOpt
      rw [hn']
      rfl)
    rw [hk]
    exact ⟨_, rfl⟩
  · exact ⟨_, rfl⟩
  · exact ⟨_, rfl⟩

theorem comprehensiveSearchOpt_ok (fuse : FuseOpt) (getTime : String → Int)
    (robots : List SearchableRobotOpt) (query : String) (tag : Option String)
    (sortBy : String) (limit : Nat) (hsub : FuseOptSubset fuse)
    (hn : ∀ r ∈ robots, r.name.isSome = true) (hs : ∀ r ∈ robots, r.slug.isSome = true)
    (httags : (∃ t, tag = some t ∧ t ≠ "" ∧ t ≠ "all") → ∀ r ∈ robots, r.tags.isSome = true) :
    ∃ res, comprehensiveSearchOpt fuse getTime robots query tag sortBy limit = .ok res := by
  by_cases hg : jsTrim query = ""
  · obtain ⟨fl, hfl, hflmem⟩ := tagPoolE_ok robots tag httags
    obtain ⟨sorted, hsorted⟩ := sortSearchResultsOpt_ok getTime fl sortBy
      (fun r hr => hn r (hflmem r hr))
    refine ⟨sorted.take limit, ?_⟩
    unfold comprehensiveSearchOpt
    rw [if_pos hg, hfl]
    show (match sortSearchResultsOpt getTime fl sortBy with
      | .error e => .error e
      | .ok sorted => .ok (sorted.take limit) : Except JsError (List SearchableRobotOpt)) = _
    rw [hsorted]
  · obtain ⟨sr, hsr, hsrmem⟩ :=
      searchRobotsWithTagFilterOpt_ok fuse robots query tag limit hsub hn hs httags
    obtain ⟨sorted, hsorted⟩ := sortSearchResultsOpt_ok getTime sr sortBy
      (fun r hr => hn r (hsrmem r hr))
    refine ⟨sorted, ?_⟩
    unfold comprehensiveSearchOpt
    rw [if_neg hg, hsr]
    exact hsorted

/-- C3 counterexample: on a collection holding one entry with no `name`
field, a non-empty query makes the exact-match filter of
`searchRobotsClientSide` evaluate `robot.name.toLowerCase()` on `undefined`,
and a `TypeError` escapes instead of the promised result list. -/
theorem c3_totality_counterexample :
    searchRobotsClientSideOpt fuseModelOpt [namelessEntry] "x" 50 =
      .error .typeError := by
  rfl

/-- C3 amended: the three entry points are total (no exception escapes) on
every collection whose entries carry `name` and `slug`, with `tags` also
present whenever an active tag filter is passed; `description` (and `tags`
outside the tag-filter path) may be absent, and the fuzzy backend is any
total backend drawing from the collection. -/
theorem c3_totality_amended :
    ∀ (fuse : FuseOpt) (getTime : String → Int) (robots : List SearchableRobotOpt)
      (query : String) (tag : Option String) (sortBy : String) (limit : Nat),
      FuseOptSubset fuse →
      (∀ r ∈ robots, r.name.isSome = true) →
      (∀ r ∈ robots, r.slug.isSome = true) →
      ((∃ t, tag = some t ∧ t ≠ "" ∧ t ≠ "all") → ∀ r ∈ robots, r.tags.isSome = true) →
      (searchRobotsClientSideOpt fuse robots query limit).isOk = true ∧
      (searchRobotsWithTagFilterOpt fuse robots query tag limit).isOk = true ∧
      (comprehensiveSearchOpt fuse getTime robots query tag sortBy limit).isOk = true := by
  intro fuse getTime robots query tag sortBy limit hsub hn hs httags
  obtain ⟨r1, h1, -⟩ := searchRobotsClientSideOpt_ok fuse robots query limit
    (fun r hr => hsub robots _ limit r hr) hn hs
  obtain ⟨r2, h2, -⟩ :=
    searchRobotsWithTagFilterOpt_ok fuse robots query tag limit hsub hn hs httags
  obtain ⟨r3, h3⟩ :=
    comprehensiveSearchOpt_ok fuse getTime robots query tag sortBy limit hsub hn hs httags
  exact ⟨isOk_of_eq_ok h1, isOk_of_eq_ok h2, isOk_of_eq_ok h3⟩

/-- Witness for the amended C3 on a fully-populated entry. -/
theorem c3_totality_amended_witness :
    (searchRobotsClientSideOpt fuseModelOpt [completeOptEntry] "so" 50).isOk = true ∧
    (searchRobotsWithTagFilterOpt fuseModelOpt [completeOptEntry] "so" (some "arm") 50).isOk
      = true ∧
    (comprehensiveSearchOpt fuseModelOpt sampleGetTime [completeOptEntry] "so" (some "arm")
      "name" 50).isOk = true :=
  c3_totality_amended fuseModelOpt sampleGetTime [completeOptEntry] "so" (some "arm") "name" 50
    (fun _ _ _ r hr => absurd hr (List.not_mem_nil r))
    (by decide) (by decide) (fun _ => by decide)

/-! ## Frame lemmas on the store model -/

theorem readRef_append_of_lt (σ : Store) (v : List SearchableRobot) (r : Nat)
    (h : r < σ.length) : readRef (σ ++ [v]) r = readRef σ r := by
  unfold readRef
  exact List.getD_append σ [v] [] r h

theorem readRef_append_self (σ : Store) (v : List SearchableRobot) :
    readRef (σ ++ [v]) σ.length = v := by
  unfold readRef
  rw [List.getD_append_right σ [v] [] σ.length (le_refl _)]
  simp

theorem allocSort_frame (σ : Store) (v : List SearchableRobot) (ref : Nat)
    (h : ref < σ.length) (hperm : v.Perm (readRef σ ref)) :
    readRef (σ ++ [v]) ref = readRef σ ref ∧
    (readRef (σ ++ [v]) σ.length).Perm (readRef σ ref) :=
  ⟨readRef_append_of_lt σ v ref h, by rw [readRef_append_self]; exact hperm⟩

theorem sortRef_frame (getTime : String → Int) (σ : Store) (ref : Nat) (sortBy : String)
    (r : Nat) (h : r < σ.length) :
    readRef (sortSearchResultsRef getTime σ ref sortBy).2 r = readRef σ r ∧
    σ.length ≤ (sortSearchResultsRef getTime σ ref sortBy).2.length := by
  unfold sortSearchResultsRef
  split_ifs
  · exact ⟨readRef_append_of_lt σ _ r h, by simp⟩
  · exact ⟨readRef_append_of_lt σ _ r h, by simp⟩
  · exact ⟨readRef_append_of_lt σ _ r h, by simp⟩
  · exact ⟨readRef_append_of_lt σ _ r h, by simp⟩
  · exact ⟨rfl, le_refl _⟩

theorem tagPoolRef_frame (σ : Store) (ref : Nat) (tag : Option String) (r : Nat)
    (h : r < σ.length) :
    readRef (tagPoolRef σ ref tag).2 r = readRef σ r ∧
    σ.length ≤ (tagPoolRef σ ref tag).2.length := by
  rcases tag with _ | t
  · exact ⟨rfl, le_refl _⟩
  · show readRef (if t ≠ "" ∧ t ≠ "all" then
        (σ.length, σ ++ [(readRef σ ref).filter (fun x => x.tags.contains t)])
      else (ref, σ)).2 r = readRef σ r ∧
      σ.length ≤ (if t ≠ "" ∧ t ≠ "all" then
        (σ.length, σ ++ [(readRef σ ref).filter (fun x => x.tags.contains t)])
      else (ref, σ)).2.length
    split_ifs
    · exact ⟨readRef_append_of_lt σ _ r h, by simp⟩
    · exact ⟨rfl, le_refl _⟩

theorem comprehensiveRef_frame_core (getTime : String → Int) (sortBy : String) (limit : Nat)
    (σ : Store) (ref : Nat) (fil1 : Nat) (fil2 : Store)
    (hread : readRef fil2 ref = readRef σ ref) (hlen : σ.length ≤ fil2.length)
    (h : ref < σ.length) :
    readRef ((sortSearchResultsRef getTime fil2 fil1 sortBy).2 ++
        [(readRef (sortSearchResultsRef getTime fil2 fil1 sortBy).2
          (sortSearchResultsRef getTime fil2 fil1 sortBy).1).take limit]) ref =
    readRef σ ref := by
  have h2 := sortRef_frame getTime fil2 fil1 sortBy ref (lt_of_lt_of_le h hlen)
  rw [readRef_append_of_lt _ _ _ (lt_of_lt_of_le (lt_of_lt_of_le h hlen) h2.2), h2.1, hread]

/-- C10: neither `sortSearchResultsRef` nor `comprehensiveSearchRef`
disturbs the caller's array — the four explicit sort modes sort a freshly
allocated spread copy in place, `relevance`/default return the reference
with the store untouched, and the sorted array returned to the caller holds
exactly the caller's entry objects rearranged. -/
theorem c10_input_array_unchanged :
    (∀ (getTime : String → Int) (σ : Store) (ref : Nat) (sortBy : String),
      ref < σ.length →
      readRef (sortSearchResultsRef getTime σ ref sortBy).2 ref = readRef σ ref ∧
      (readRef (sortSearchResultsRef getTime σ ref sortBy).2
        (sortSearchResultsRef getTime σ ref sortBy).1).Perm (readRef σ ref)) ∧
    (∀ (fuse : Fuse) (getTime : String → Int) (σ : Store) (ref : Nat) (query : String)
        (tag : Option String) (sortBy : String) (limit : Nat), ref < σ.length →
      readRef (comprehensiveSearchRef fuse getTime σ ref query tag sortBy limit).2 ref =
        readRef σ ref) := by
  constructor
  · intro getTime σ ref sortBy h
    unfold sortSearchResultsRef
    split_ifs
    · exact allocSort_frame σ _ ref h (jsSortBy_perm _ _)
    · exact allocSort_frame σ _ ref h (jsSortBy_perm _ _)
    · exact allocSort_frame σ _ ref h (jsSortBy_perm _ _)
    · exact allocSort_frame σ _ ref h (jsSortBy_perm _ _)
    · exact ⟨rfl, List.Perm.refl _⟩
  · intro fuse getTime σ ref query tag sortBy limit h
    unfold comprehensiveSearchRef
    by_cases hg : jsTrim query = ""
    · rw [if_pos hg]
      have hfil := tagPoolRef_frame σ ref tag ref h
      exact comprehensiveRef_frame_core getTime sortBy limit σ ref
        (tagPoolRef σ ref tag).1 (tagPoolRef σ ref tag).2 hfil.1 hfil.2 h
    · rw [if_neg hg]
      have hs := sortRef_frame getTime
        (σ ++ [searchRobotsWithTagFilter fuse (readRef σ ref) query tag limit]) σ.length
        sortBy ref (by simp; omega)
      show readRef (sortSearchResultsRef getTime
        (σ ++ [searchRobotsWithTagFilter fuse (readRef σ ref) query tag limit]) σ.length
          sortBy).2 ref = _
      rw [hs.1, readRef_append_of_lt σ _ ref h]

/-- Witness for C10 on a concrete two-array store. -/
theorem c10_input_array_unchanged_witness :
    readRef (sortSearchResultsRef sampleGetTime [[so101Entry, so100Entry]] 0 "newest").2 0 =
      readRef [[so101Entry, so100Entry]] 0 ∧
    readRef (comprehensiveSearchRef fuseModel sampleGetTime [[so101Entry, so100Entry]] 0
      "" none "name" 50).2 0 = readRef [[so101Entry, so100Entry]] 0 :=
  ⟨(c10_input_array_unchanged.1 sampleGetTime [[so101Entry, so100Entry]] 0 "newest"
      (by decide)).1,
    c10_input_array_unchanged.2 fuseModel sampleGetTime [[so101Entry, so100Entry]] 0
      "" none "name" 50 (by decide)⟩
